import Mathlib

/-!
Verification of the dinky embedded document store (query/update compiler and
collection operations) against its natural-language specification.

The TypeScript sources are shallowly embedded: JavaScript/JSON values become
the inductive `JSVal`, objects become association lists preserving key order,
pure functions become Lean functions, fallible code returns `Except`, and the
fresh-identifier generator (`uuid.v4`) is modelled as an explicit supply of
strings indexed by a draw counter.  SQL statements are kept as the literal
strings the compiler emits; where a claim is about their runtime behaviour, a
small semantics of the relevant SQLite fragment (`json_extract`, `IS`,
parameter binding with unbound trailing placeholders read as NULL) is defined
alongside.
-/

/-- JavaScript/JSON values.  Numbers are modelled as integers; none of the
claims depend on float behaviour. -/
inductive JSVal : Type where
  | null : JSVal
  | bool : Bool → JSVal
  | num : Int → JSVal
  | str : String → JSVal
  | arr : List JSVal → JSVal
  | obj : List (String × JSVal) → JSVal
deriving Repr

mutual
/-- Structural equality test on `JSVal` (nested inductive, so written by
hand). -/
def beqVal : JSVal → JSVal → Bool
  | .null, .null => true
  | .bool a, .bool b => a == b
  | .num a, .num b => a == b
  | .str a, .str b => a == b
  | .arr a, .arr b => beqValList a b
  | .obj a, .obj b => beqValFields a b
  | _, _ => false

/-- Elementwise equality on value lists. -/
def beqValList : List JSVal → List JSVal → Bool
  | [], [] => true
  | a :: as, b :: bs => beqVal a b && beqValList as bs
  | _, _ => false

/-- Entrywise equality on key/value lists. -/
def beqValFields : List (String × JSVal) → List (String × JSVal) → Bool
  | [], [] => true
  | (k1, v1) :: as, (k2, v2) :: bs => k1 == k2 && beqVal v1 v2 && beqValFields as bs
  | _, _ => false
end

mutual
theorem beqVal_iff : ∀ a b : JSVal, beqVal a b = true ↔ a = b
  | a, b => by
    cases a <;> cases b <;> simp only [beqVal] <;> try simp
    case arr.arr x y => exact beqValList_iff x y
    case obj.obj x y => exact beqValFields_iff x y

theorem beqValList_iff : ∀ a b : List JSVal, beqValList a b = true ↔ a = b
  | [], [] => by simp [beqValList]
  | [], _ :: _ => by simp [beqValList]
  | _ :: _, [] => by simp [beqValList]
  | x :: xs, y :: ys => by
    simp only [beqValList, Bool.and_eq_true, beqVal_iff x y, beqValList_iff xs ys,
      List.cons.injEq]

theorem beqValFields_iff : ∀ a b : List (String × JSVal), beqValFields a b = true ↔ a = b
  | [], [] => by simp [beqValFields]
  | [], _ :: _ => by simp [beqValFields]
  | _ :: _, [] => by simp [beqValFields]
  | (k1, v1) :: xs, (k2, v2) :: ys => by
    simp only [beqValFields, Bool.and_eq_true, beqVal_iff v1 v2, beqValFields_iff xs ys,
      List.cons.injEq, Prod.mk.injEq, beq_iff_eq]
    try tauto
end

instance : DecidableEq JSVal := fun a b =>
  decidable_of_iff (beqVal a b = true) (beqVal_iff a b)

/-- A JavaScript object: key/value pairs in insertion order, keys unique. -/
abbrev JSObj := List (String × JSVal)

/-- JavaScript truthiness: `null`, `false`, `0` and the empty string are
falsy; arrays and objects are always truthy. -/
def JSVal.truthy : JSVal → Bool
  | .null => false
  | .bool b => b
  | .num n => n != 0
  | .str s => s != ""
  | .arr _ => true
  | .obj _ => true

/-- Property read `o[k]` on an object. -/
def getKey (k : String) (o : JSObj) : Option JSVal :=
  o.lookup k

/-- Property write `o[k] = v`: overwrite in place, else append. -/
def setKey (k : String) (v : JSVal) : JSObj → JSObj
  | [] => [(k, v)]
  | (k0, v0) :: rest => if k0 = k then (k, v) :: rest else (k0, v0) :: setKey k v rest

/- ### src/util.ts -/

/-- `key.startsWith('$')`, written on the character list so that concrete
instances reduce definitionally. -/
def startsWithDollar (s : String) : Bool :=
  match s.data with
  | [] => false
  | c :: _ => c == '$'

mutual
/-- `containsClauses` from util.ts: true when the value is a plain object one
of whose keys (at any depth, not looking inside arrays) starts with `$`. -/
def containsClauses : JSVal → Bool
  | .obj fs => containsClausesFields fs
  | _ => false

/-- Key-list worker for `containsClauses`. -/
def containsClausesFields : List (String × JSVal) → Bool
  | [] => false
  | (k, v) :: rest => startsWithDollar k || containsClauses v || containsClausesFields rest
end

mutual
/-- `filterClauses` from util.ts: recursively drop `$`-prefixed keys from
plain objects; arrays and scalars are returned verbatim. -/
def filterClauses : JSVal → JSVal
  | .obj fs => .obj (filterClausesFields fs)
  | v => v

/-- Key-list worker for `filterClauses`. -/
def filterClausesFields : List (String × JSVal) → List (String × JSVal)
  | [] => []
  | (k, v) :: rest =>
    if startsWithDollar k then filterClausesFields rest
    else (k, filterClauses v) :: filterClausesFields rest
end

/- ### Collection.strippedJSON (index.ts)

`strippedJSON` serializes with a `JSON.stringify` replacer that returns
`undefined` whenever the visited key equals the collection's `idField`.
Per `JSON.stringify` semantics an object member whose replacer result is
`undefined` is omitted, while an array element is replaced by `null` (array
elements are visited with their index rendered as the key). -/

mutual
/-- The document value that `strippedJSON` serializes: every object member
named `idf` removed at every depth; an array element whose stringified index
equals `idf` becomes `null`. -/
def stripVal (idf : String) : JSVal → JSVal
  | .obj fs => .obj (stripFields idf fs)
  | .arr xs => .arr (stripElems idf 0 xs)
  | v => v

/-- Object-member worker for `stripVal`. -/
def stripFields (idf : String) : List (String × JSVal) → List (String × JSVal)
  | [] => []
  | (k, v) :: rest =>
    if k = idf then stripFields idf rest
    else (k, stripVal idf v) :: stripFields idf rest

/-- Array-element worker for `stripVal` (the element index is the replacer
key). -/
def stripElems (idf : String) (i : Nat) : List JSVal → List JSVal
  | [] => []
  | x :: rest =>
    (if toString i = idf then JSVal.null else stripVal idf x) :: stripElems idf (i + 1) rest
end

mutual
/-- Whether a value contains an object member named `k` at any depth
(including inside arrays). -/
def hasKeyDeep (k : String) : JSVal → Bool
  | .obj fs => hasKeyFields k fs
  | .arr xs => hasKeyElems k xs
  | _ => false

/-- Object-member worker for `hasKeyDeep`. -/
def hasKeyFields (k : String) : List (String × JSVal) → Bool
  | [] => false
  | (k0, v) :: rest => k0 == k || hasKeyDeep k v || hasKeyFields k rest

/-- Array-element worker for `hasKeyDeep`. -/
def hasKeyElems (k : String) : List JSVal → Bool
  | [] => false
  | x :: rest => hasKeyDeep k x || hasKeyElems k rest
end

/- ### src/query.ts : the Query compiler -/

/-- The Mongo query operators understood by the compiler (`Operator` in
query.ts).  `$in` is named `isin` because `in` is a Lean keyword. -/
inductive QOp : Type where
  | and | or | not | nin | isin | eq | ne | gt | gte | lt | lte | like
deriving Repr, DecidableEq

/-- `formatOperator` from query.ts: look up `operatorMap[o || '$eq']`.  The
map has no entry for `$and`/`$or`; JavaScript would yield `undefined`, which
stringifies to "undefined" (those cases are unreachable from `partToString`).
-/
def formatOperator : Option QOp → String
  | none => "IS"
  | some .eq => "IS"
  | some .gt => ">"
  | some .gte => ">="
  | some .lt => "<"
  | some .lte => "<="
  | some .ne => "!="
  | some .not => "NOT"
  | some .nin => "NOT IN"
  | some .isin => "IN"
  | some .like => "LIKE"
  | some .and => "undefined"
  | some .or => "undefined"

mutual
/-- `formatOperand` from query.ts: arrays become a parenthesised placeholder
list, `null` becomes the literal `NULL`, anything else a `?` placeholder. -/
def formatOperand : JSVal → String
  | .arr xs => "(" ++ formatOperandList xs ++ ")"
  | .null => "NULL"
  | _ => "?"

/-- `operand.map(formatOperand).join(", ")`. -/
def formatOperandList : List JSVal → String
  | [] => ""
  | [x] => formatOperand x
  | x :: rest => formatOperand x ++ ", " ++ formatOperandList rest
end

mutual
/-- `filterOperand` from query.ts: `null` becomes an empty array, arrays are
mapped recursively and then filtered by `x => x && (x != [])`.  For every
value that test is equivalent to JavaScript truthiness (arrays and objects
are always truthy, and for truthy primitives loose inequality with `[]`
always holds). -/
def filterOperand : JSVal → JSVal
  | .arr xs => .arr (filterOperandList xs)
  | .null => .arr []
  | v => v

/-- Map-then-filter worker for `filterOperand`. -/
def filterOperandList : List JSVal → List JSVal
  | [] => []
  | x :: rest =>
    (if (filterOperand x).truthy then [filterOperand x] else []) ++ filterOperandList rest
end

/-- The result of compiling one query part (`QueryResult` in query.ts):
`operands` is a raw JavaScript value because leaf parts store a bare scalar
there while inner nodes store an array. -/
structure QueryResult : Type where
  sql : String
  operands : JSVal
  join : Option String
deriving Repr, DecidableEq

/-- One node of the parsed Mongo query (`QueryPart` in query.ts).  The
external `mongo-parse` package produces these; the compiler only consumes
them. -/
inductive QueryPart : Type where
  | mk (field : Option String) (op : Option QOp) (operand : JSVal) (parts : List QueryPart)

/-- Compilation environment: the collection name, the array-index map, the
`nonJSONFields` map (`idField ↦ "_id"`), and the stream of identifiers that
successive `uuid.v4()` calls return, indexed by a draw counter. -/
structure QEnv : Type where
  name : String
  arrayIndexes : String → Option String
  nonJSONFields : String → Option String
  fresh : Nat → String

/-- `Query.littoJSON`: a field listed in `nonJSONFields` (with a truthy,
i.e. nonempty, column name) is read from its SQL column, anything else via
`json_extract` on the document column. -/
def littoJSON (env : QEnv) (jsonPath : String) : String :=
  match env.nonJSONFields jsonPath with
  | some s => if s = "" then "json_extract(document, \"$." ++ jsonPath ++ "\")" else s
  | none => "json_extract(document, \"$." ++ jsonPath ++ "\")"

/-- `Array.prototype.join(sep)`. -/
def joinSep (sep : String) : List String → String
  | [] => ""
  | [s] => s
  | s :: rest => s ++ sep ++ joinSep sep rest

/-- `([] as any[]).concat(...xs)`: each argument that is an array is
flattened one level, any other argument is appended as a single element. -/
def jsConcat : List JSVal → List JSVal
  | [] => []
  | .arr l :: rest => l ++ jsConcat rest
  | v :: rest => v :: jsConcat rest

mutual
/-- `Query.partToString`: compile one query part, given the upstream operator
string (`""` by default, `"NOT"` under `$not`) and the current `uuid.v4()`
draw counter.  Errors mirror the `throw new Error(...)` sites. -/
def partToString (env : QEnv) : QueryPart → String → Nat →
    Except String (QueryResult × Nat)
  | .mk _ (some .and) _ parts, _, ctr => do
    let (res, c1) ← partsToString env parts "" ctr
    pure (⟨joinSep " AND " (res.map QueryResult.sql),
           .arr (jsConcat (res.map QueryResult.operands)), none⟩, c1)
  | .mk _ (some .or) _ parts, _, ctr => do
    let (res, c1) ← partsToString env parts "" ctr
    pure (⟨joinSep " OR " (res.map QueryResult.sql),
           .arr (jsConcat (res.map QueryResult.operands)), none⟩, c1)
  | .mk _ (some .not) _ parts, _, ctr => do
    let (res, c1) ← partsToString env parts (formatOperator (some .not)) ctr
    pure (⟨joinSep " AND " (res.map QueryResult.sql),
           .arr (jsConcat (res.map QueryResult.operands)), none⟩, c1)
  | .mk field (some .nin) operand parts, up, ctr =>
    inOrNin env field .nin operand parts up ctr
  | .mk field (some .isin) operand parts, up, ctr =>
    inOrNin env field .isin operand parts up ctr
  | .mk field op operand parts, up, _ctr =>
    -- comparator leaf ($gt/$gte/$lt/$lte/$ne/$eq/$like) or implicit equality
    if parts.length > 0 then .error "Unsupported query part"
    else
      .ok (⟨"(" ++ littoJSON env (field.getD "undefined") ++ " " ++ up ++ " " ++
              formatOperator (some (op.getD .eq)) ++ " ?)",
            filterOperand operand, none⟩, _ctr)

/-- The shared `$in`/`$nin` branch of `partToString`. -/
def inOrNin (env : QEnv) (field : Option String) (op : QOp) (operand : JSVal)
    (parts : List QueryPart) (up : String) (ctr : Nat) :
    Except String (QueryResult × Nat) :=
  if (field.getD "") = "" then .error "Strange output in parsed query, expected field"
  else if parts.length > 0 then .error "Unsupported query part"
  else
    let fieldStr := field.getD ""
    let operands := filterOperand operand
    let joinTable := env.fresh ctr
    let join0 := ", json_each(" ++ littoJSON env fieldStr ++ ") as \"" ++ joinTable ++ "\""
    let sql0 := "\"" ++ joinTable ++ "\".value " ++ up ++ " " ++
      formatOperator (some .isin) ++ " " ++ formatOperand operand
    let (join1, sql1) :=
      match env.arrayIndexes fieldStr with
      | some table =>
        if table = "" then (join0, sql0)
        else ("INNER JOIN \"" ++ table ++ "\" ON \"" ++ table ++ "\"._id = \"" ++
                env.name ++ "\"._id",
              "\"" ++ table ++ "\".value " ++ up ++ " " ++
                formatOperator (some .isin) ++ " " ++ formatOperand operand)
      | none => (join0, sql0)
    if op = .nin then
      .ok (⟨"\"" ++ env.name ++ "\"._id NOT IN ( SELECT \"" ++ env.name ++
              "\"._id FROM \"" ++ env.name ++ "\" " ++ join1 ++ " WHERE " ++ sql1 ++ ")",
            operands, none⟩, ctr + 1)
    else
      .ok (⟨sql1, operands, some join1⟩, ctr + 1)

/-- Sequentially compile a list of parts, threading the draw counter. -/
def partsToString (env : QEnv) : List QueryPart → String → Nat →
    Except String (List QueryResult × Nat)
  | [], _, ctr => .ok ([], ctr)
  | p :: rest, up, ctr => do
    let (r, c1) ← partToString env p up ctr
    let (rs, c2) ← partsToString env rest up c1
    pure (r :: rs, c2)
end

/-- The lazily-computed `Query.results`: the top-level parts of the parsed
query compiled with the default upstream operator, starting from draw
counter `c0`. -/
def queryResults (env : QEnv) (parts : List QueryPart) (c0 : Nat) :
    Except String (List QueryResult × Nat) :=
  partsToString env parts "" c0

/-- `Query.sql`: the per-part fragments joined with `AND`. -/
def querySql (results : List QueryResult) : String :=
  joinSep " AND " (results.map QueryResult.sql)

/-- `Query.values`: `[].concat(...results.map(x => x.operands))`. -/
def queryValues (results : List QueryResult) : List JSVal :=
  jsConcat (results.map QueryResult.operands)

/-- `Query.join`: the defined, nonempty join fragments joined with spaces. -/
def queryJoin (results : List QueryResult) : String :=
  let joins := (results.filterMap QueryResult.join).filter (fun s => s ≠ "")
  if joins.length > 0 then joinSep " " joins else ""

/-- Number of `?` placeholders in a SQL fragment. -/
def countQ (s : String) : Nat := s.data.count '?'

/-- Length of a `values` contribution: an array counts its elements, a bare
scalar counts as the single element `concat` appends. -/
def jsLen : JSVal → Nat
  | .arr l => l.length
  | _ => 1

/- ### Collection.insert / read-side populate (index.ts) -/

/-- The top-level object stored by `Collection.insert`: the document with its
identifier assigned and then serialized through `strippedJSON`.  The same
stripping is applied by the replacement-update path. -/
def insertStored (idf id : String) (doc : JSObj) : JSObj :=
  stripFields idf (setKey idf (.str id) doc)

/-- The read-side `populate` of `_find`: parse the stored JSON and re-attach
the identifier column under `idField` at the top level only. -/
def populateDoc (idf id : String) (stored : JSObj) : JSObj :=
  setKey idf (.str id) stored

/-- Insert-then-find round trip of a document under identifier field `idf`
and assigned identifier `id`. -/
def roundTripDoc (idf id : String) (doc : JSObj) : JSObj :=
  populateDoc idf id (insertStored idf id doc)

mutual
theorem hasKeyDeep_stripVal (k : String) : ∀ v, hasKeyDeep k (stripVal k v) = false
  | .null => rfl
  | .bool _ => rfl
  | .num _ => rfl
  | .str _ => rfl
  | .obj fs => by
    rw [stripVal, hasKeyDeep]
    exact hasKeyFields_stripFields k fs
  | .arr xs => by
    rw [stripVal, hasKeyDeep]
    exact hasKeyElems_stripElems k 0 xs

theorem hasKeyFields_stripFields (k : String) :
    ∀ fs, hasKeyFields k (stripFields k fs) = false
  | [] => rfl
  | (k0, v) :: rest => by
    by_cases h : k0 = k
    · rw [stripFields, if_pos h]
      exact hasKeyFields_stripFields k rest
    · rw [stripFields, if_neg h, hasKeyFields, hasKeyDeep_stripVal k v,
        hasKeyFields_stripFields k rest]
      simp [h]

theorem hasKeyElems_stripElems (k : String) :
    ∀ (i : Nat) (xs : List JSVal), hasKeyElems k (stripElems k i xs) = false
  | _, [] => rfl
  | i, x :: rest => by
    rw [stripElems, hasKeyElems, hasKeyElems_stripElems k (i + 1) rest]
    by_cases h : toString i = k
    · rw [if_pos h]
      rfl
    · rw [if_neg h, hasKeyDeep_stripVal k x]
      rfl
end

theorem getKey_setKey (k : String) (v : JSVal) :
    ∀ o : JSObj, getKey k (setKey k v o) = some v
  | [] => by simp [getKey, setKey, List.lookup]
  | (k0, v0) :: rest => by
    by_cases h : k0 = k
    · simp [setKey, h, getKey, List.lookup]
    · rw [setKey, if_neg h]
      show List.lookup k ((k0, v0) :: setKey k v rest) = some v
      rw [List.lookup]
      have hk : (k == k0) = false := by
        simp [Ne.symm h]
      rw [hk]
      exact getKey_setKey k v rest

theorem allVals_of_hasKeyFields_false (k : String) :
    ∀ o : JSObj, hasKeyFields k o = false →
      o.all (fun kv => !hasKeyDeep k kv.2) = true
  | [], _ => rfl
  | (k0, v) :: rest, h => by
    rw [hasKeyFields] at h
    simp only [Bool.or_eq_false_iff] at h
    simp only [List.all_cons, Bool.and_eq_true]
    exact ⟨by simp [h.1.2], allVals_of_hasKeyFields_false k rest h.2⟩

theorem setKey_all (p : String × JSVal → Bool) (k : String) (v : JSVal) :
    ∀ o : JSObj, o.all p = true → p (k, v) = true → (setKey k v o).all p = true
  | [], _, h2 => by simp [setKey, h2]
  | (k0, v0) :: rest, h1, h2 => by
    simp only [List.all_cons, Bool.and_eq_true] at h1
    by_cases h : k0 = k
    · simp only [setKey, if_pos h, List.all_cons, Bool.and_eq_true]
      exact ⟨h2, h1.2⟩
    · simp only [setKey, if_neg h, List.all_cons, Bool.and_eq_true]
      exact ⟨h1.1, setKey_all p k v rest h1.2 h2⟩

/-- Claim C9: `insert` (and the replacement-update path, both through
`strippedJSON`) removes every key named `idField` at every nesting depth
before storing, while the read side re-attaches the identifier at the top
level only; hence a nested key named `idField` never survives an
insert-then-find round trip.  Stated as: the stored object contains no
`idField` member at any depth, the round-tripped document carries the
identifier at the top level, and no value inside the round-tripped document
contains an `idField` member at any depth. -/
theorem insert_find_strips_nested_idField (idf id : String) (doc : JSObj) :
    hasKeyFields idf (insertStored idf id doc) = false ∧
    getKey idf (roundTripDoc idf id doc) = some (.str id) ∧
    (roundTripDoc idf id doc).all (fun kv => !hasKeyDeep idf kv.2) = true := by
  refine ⟨hasKeyFields_stripFields idf _, getKey_setKey idf _ _, ?_⟩
  apply setKey_all
  · exact allVals_of_hasKeyFields_false idf _ (hasKeyFields_stripFields idf _)
  · rfl

/- ### Collection.find / findOne (index.ts) -/

/-- `optOp` from index.ts: emit `"<operator> <value>"` when the value is
truthy and nonblank, else the empty string. -/
def optOp (operator : String) (value : String) : String :=
  if value.data.all Char.isWhitespace then "" else operator ++ " " ++ value

/-- `optOp` applied to the numeric `limit` argument (`undefined` or a
number; `0` is falsy in JavaScript and suppresses the clause). -/
def optOpNum (operator : String) (value : Option Nat) : String :=
  match value with
  | none => ""
  | some n => if n = 0 then "" else operator ++ " " ++ toString n

/-- The branch test of `_find`: `q && Object.keys(q).length > 0` decides the
compiled path; `find(q?)` first replaces a missing query by `{}`.  Returns
true when the unfiltered `SELECT *` is executed. -/
def findUsesUnfilteredSelect (q : Option JSObj) : Bool :=
  (q.getD []).length == 0

/-- The statement text of the unfiltered branch of `_find`. -/
def findUnfilteredSQL (name orderSQL : String) (limit : Option Nat) : String :=
  "SELECT * from \"" ++ name ++ "\" " ++ optOp "ORDER BY" orderSQL ++ " " ++
    optOpNum "LIMIT" limit

/-- `LIMIT` semantics for the model table: `none` or `0` (falsy, clause
suppressed) return every row. -/
def limitRows (limit : Option Nat) (rows : List (String × JSObj)) :
    List (String × JSObj) :=
  match limit with
  | none => rows
  | some n => if n = 0 then rows else rows.take n

/-- Result rows of the unfiltered branch of `_find`: every stored row,
limited, then populated (JSON parsed and the identifier injected under
`idField`). -/
def findUnfiltered (idf : String) (rows : List (String × JSObj))
    (limit : Option Nat) : List JSObj :=
  (limitRows limit rows).map (fun r => populateDoc idf r.1 r.2)

/-- `findOne`: `find(q, 1)` and then the first document, or null (`none`)
when no row is produced. -/
def findOneUnfiltered (idf : String) (rows : List (String × JSObj)) :
    Option JSObj :=
  match findUnfiltered idf rows (some 1) with
  | [] => none
  | d :: _ => some d

/-- Claim C10: `find` with no query argument or with an empty query object
takes the unfiltered branch, whose statement is a plain `SELECT *` with no
WHERE clause, and returns every stored document populated with its
identifier under `idField`; `findOne` returns the first such document or
null (`none`) when there are no rows. -/
theorem find_empty_query_returns_all (name idf : String)
    (rows : List (String × JSObj)) :
    findUsesUnfilteredSelect none = true ∧
    findUsesUnfilteredSelect (some []) = true ∧
    findUnfilteredSQL name "" none = "SELECT * from \"" ++ name ++ "\"  " ∧
    findUnfiltered idf rows none = rows.map (fun r => populateDoc idf r.1 r.2) ∧
    findOneUnfiltered idf rows =
      (rows.map (fun r => populateDoc idf r.1 r.2)).head? := by
  refine ⟨rfl, rfl, ?_, rfl, ?_⟩
  · simp [findUnfilteredSQL, optOp, optOpNum, String.append_assoc]
  · cases rows with
    | nil => rfl
    | cons r rest => rfl

/- ### Collection.ensureArrayIndex (index.ts) -/

/-- Lookup in the in-memory `arrayIndexes` map. -/
def mapHas (m : List (String × String)) (k : String) : Bool :=
  (m.lookup k).isSome

/-- `Map.set` on the in-memory `arrayIndexes` map. -/
def mapSetStr (k v : String) : List (String × String) → List (String × String)
  | [] => [(k, v)]
  | (k0, v0) :: rest => if k0 = k then (k, v) :: rest else (k0, v0) :: mapSetStr k v rest

/-- One action of `_ensureArrayIndex`: a backend call (which may fail) or the
in-memory `arrayIndexes.set` (which cannot). -/
inductive IdxAction : Type where
  | run (sql : String)
  | setMap (k v : String)
deriving Repr, DecidableEq

/-- The side-table name `` `${name}_${key}` ``. -/
def indexTableName (name key : String) : String := name ++ "_" ++ key

/-- The backend statements `_ensureArrayIndex` issues, in order, when the
path is not yet indexed: create the side table, create its value index,
drop-and-recreate the three triggers, then push the index record onto the
metadata document (itself a backend round trip through `Collection.update`).
-/
def arrayIndexSteps (name key order : String) : List String :=
  let tbl := indexTableName name key
  ["CREATE TABLE IF NOT EXISTS \"" ++ tbl ++
     "\" AS SELECT _id, json_each.* FROM \"" ++ name ++
     "\", json_each(document, '$." ++ key ++ "')",
   "CREATE INDEX IF NOT EXISTS \"" ++ tbl ++ "_" ++ order ++ "\" ON \"" ++ tbl ++
     "\" (\"value\" " ++ order ++ ")",
   "DROP TRIGGER IF EXISTS \"" ++ tbl ++ "_insert_trigger\"",
   "CREATE TRIGGER \"" ++ tbl ++ "_insert_trigger\" AFTER INSERT ON \"" ++ name ++
     "\"\n    BEGIN\n    INSERT INTO \"" ++ tbl ++
     "\" SELECT NEW._id, json_each.* FROM json_each(NEW.document, '$." ++ key ++
     "');\n    END;",
   "DROP TRIGGER IF EXISTS \"" ++ tbl ++ "_update_trigger\"",
   "CREATE TRIGGER \"" ++ tbl ++ "_update_trigger\" AFTER UPDATE ON \"" ++ name ++
     "\"\n    BEGIN\n    DELETE FROM \"" ++ tbl ++
     "\" WHERE _id = OLD._id;\n    INSERT INTO \"" ++ tbl ++
     "\" SELECT NEW._id, json_each.* FROM json_each(NEW.document, '$." ++ key ++
     "');\n    END;",
   "DROP TRIGGER IF EXISTS \"" ++ tbl ++ "_delete\"",
   "CREATE TRIGGER \"" ++ tbl ++ "_delete\" AFTER DELETE ON \"" ++ name ++
     "\"\n    BEGIN\n    DELETE FROM \"" ++ tbl ++ "\" WHERE _id = OLD._id;\n    END;",
   "metadata.update _id=" ++ name ++ " push arrayIndexes keyPath=" ++ key ++
     " indexTable=" ++ tbl]

/-- The action sequence of one `_ensureArrayIndex` invocation: nothing at all
when the path is already in the in-memory map, otherwise the backend steps
followed by the in-memory map update (which the source performs last). -/
def ensureArrayIndexActions (name key order : String)
    (map : List (String × String)) : List IdxAction :=
  if mapHas map key then []
  else (arrayIndexSteps name key order).map IdxAction.run ++
    [IdxAction.setMap key (indexTableName name key)]

/-- Run an action list inside the transaction.  `oracle c = true` means the
`c`-th backend call fails.  Returns the statements issued so far (still
uncommitted), the in-memory map (which is NOT transactional), the error if
one occurred, and the next call counter. -/
def runIdxActions (oracle : Nat → Bool) :
    List IdxAction → List String → List (String × String) → Nat →
      List String × List (String × String) × Option String × Nat
  | [], pend, m, c => (pend, m, none, c)
  | .run sql :: rest, pend, m, c =>
    if oracle c then (pend, m, some "backend error", c + 1)
    else runIdxActions oracle rest (pend ++ [sql]) m (c + 1)
  | .setMap k v :: rest, pend, m, c =>
    runIdxActions oracle rest pend (mapSetStr k v m) c

/-- Outcome of `ensureArrayIndex` as seen by the caller: on success the
pending statements are committed; on failure `Store.withinTransaction` rolls
the statements back (they are discarded) and re-raises the error, while the
in-memory map keeps whatever value it had reached. -/
inductive TxOutcome : Type where
  | committed (statements : List String) (map : List (String × String))
  | rolledBack (map : List (String × String)) (error : String)
deriving Repr, DecidableEq

/-- `ensureArrayIndex`: build the action list, run it inside a transaction,
commit on success, roll back and re-raise on failure. -/
def ensureArrayIndexRun (name key order : String) (map : List (String × String))
    (oracle : Nat → Bool) : TxOutcome :=
  match runIdxActions oracle (ensureArrayIndexActions name key order map) [] map 0 with
  | (pend, m, none, _) => .committed pend m
  | (_, m, some e, _) => .rolledBack m e

theorem runIdxActions_map_run (oracle : Nat → Bool) (rest : List IdxAction) :
    ∀ (sqls : List String) (pend : List String) (m : List (String × String)) (c : Nat),
      runIdxActions oracle (sqls.map IdxAction.run ++ rest) pend m c =
          runIdxActions oracle rest (pend ++ sqls) m (c + sqls.length) ∨
      ∃ pend2 c2, runIdxActions oracle (sqls.map IdxAction.run ++ rest) pend m c =
          (pend2, m, some "backend error", c2)
  | [], pend, m, c => by
    left
    simp [runIdxActions]
  | s :: sqls, pend, m, c => by
    by_cases h : oracle c
    · right
      exact ⟨pend, c + 1, by simp [runIdxActions, h]⟩
    · have ih := runIdxActions_map_run oracle rest sqls (pend ++ [s]) m (c + 1)
      rcases ih with ih | ⟨pend2, c2, ih⟩
      · left
        rw [List.map_cons, List.cons_append, runIdxActions, if_neg h, ih]
        simp [List.append_assoc]
        ring_nf
      · right
        refine ⟨pend2, c2, ?_⟩
        rw [List.map_cons, List.cons_append, runIdxActions, if_neg h, ih]

/-- Claim C7: `ensureArrayIndex` on a path already present in the in-memory
array-index map issues no backend statement and leaves the map unchanged;
and when index creation is attempted and any backend step fails, the
transaction is rolled back (no statement commits), the error is re-raised,
and the in-memory map is left unchanged — the source only mutates the map
after the last backend call. -/
theorem ensureArrayIndex_noop_and_rollback (name key order : String)
    (map : List (String × String)) (oracle : Nat → Bool) :
    (mapHas map key = true →
      ensureArrayIndexRun name key order map oracle = .committed [] map) ∧
    (mapHas map key = false →
      ensureArrayIndexRun name key order map oracle =
          .committed (arrayIndexSteps name key order)
            (mapSetStr key (indexTableName name key) map) ∨
      ensureArrayIndexRun name key order map oracle = .rolledBack map "backend error") := by
  constructor
  · intro h
    simp [ensureArrayIndexRun, ensureArrayIndexActions, h, runIdxActions]
  · intro h
    have main := runIdxActions_map_run oracle [IdxAction.setMap key (indexTableName name key)]
      (arrayIndexSteps name key order) [] map 0
    rcases main with hs | ⟨pend2, c2, hs⟩
    · left
      rw [ensureArrayIndexRun, ensureArrayIndexActions, if_neg (by simp [h]), hs]
      simp [runIdxActions]
    · right
      rw [ensureArrayIndexRun, ensureArrayIndexActions, if_neg (by simp [h]), hs]

theorem ensureArrayIndex_noop_and_rollback_witness :
    mapHas [("hobbies", "people_hobbies")] "hobbies" = true ∧
    ensureArrayIndexRun "people" "hobbies" "ASC" [("hobbies", "people_hobbies")]
        (fun _ => false) =
      .committed [] [("hobbies", "people_hobbies")] :=
  ⟨by decide,
   (ensureArrayIndex_noop_and_rollback "people" "hobbies" "ASC"
      [("hobbies", "people_hobbies")] (fun _ => false)).1 (by decide)⟩

/- ### Collection._update : the update compiler (index.ts) -/

mutual
/-- `JSON.stringify` without replacer (string escaping elided: the embedded
strings here never contain characters needing escapes). -/
def jsonStringify : JSVal → String
  | .null => "null"
  | .bool b => if b then "true" else "false"
  | .num n => toString n
  | .str s => "\"" ++ s ++ "\""
  | .arr xs => "[" ++ jsonStringifyList xs ++ "]"
  | .obj fs => "\x7b" ++ jsonStringifyFields fs ++ "\x7d"

/-- Comma-joined array elements. -/
def jsonStringifyList : List JSVal → String
  | [] => ""
  | [x] => jsonStringify x
  | x :: rest => jsonStringify x ++ "," ++ jsonStringifyList rest

/-- Comma-joined object members. -/
def jsonStringifyFields : List (String × JSVal) → String
  | [] => ""
  | [(k, v)] => "\"" ++ k ++ "\":" ++ jsonStringify v
  | (k, v) :: rest => "\"" ++ k ++ "\":" ++ jsonStringify v ++ "," ++ jsonStringifyFields rest
end

/-- `Object.keys`-style enumeration of an operator clause value together
with the member values: objects list their members, arrays and strings list
their indices, primitives have no enumerable keys. -/
def jsKeys : JSVal → List (String × JSVal)
  | .obj fs => fs
  | .arr xs => (xs.enum.map fun p => (toString p.1, p.2))
  | .str s => (s.data.enum.map fun p => (toString p.1, JSVal.str (String.mk [p.2])))
  | _ => []

/-- `if (update['$tag'])`: the clause is processed when the property is
present and truthy. -/
def procOpKeys (tag : String) (u : JSObj) : Option (List (String × JSVal)) :=
  match getKey tag u with
  | some v => if v.truthy then some (jsKeys v) else none
  | none => none

/-- The `$set` binding coercion: numbers, strings and booleans are bound
directly, any other value is JSON-serialized first. -/
def setCoerce : JSVal → JSVal
  | .num n => .num n
  | .str s => .str s
  | .bool b => .bool b
  | v => .str (jsonStringify v)

/-- The `$push` binding coercion: strings and numbers are bound directly,
any other value (booleans included) is JSON-serialized. -/
def pushCoerce : JSVal → JSVal
  | .str s => .str s
  | .num n => .num n
  | v => .str (jsonStringify v)

/-- One mutation the update compiler emits against the selected row set. -/
inductive UpdOp : Type where
  | inc (k : String) (n : Int)
  | set (k : String) (v : JSVal)
  | addToSet (recursiveQuery : JSObj) (recursiveUpdate : JSObj)
  | push (k : String) (v : JSVal)
  | popLast (k : String)
  | popFirst (k : String)
  | replace (strippedDoc : JSObj)
deriving Repr, DecidableEq

/-- The `$inc` loop: non-numeric increments are fatal; no duplicate-key
check (it is the first operator processed). -/
def runIncPairs : List (String × JSVal) → List String → List UpdOp →
    Except String (List String × List UpdOp)
  | [], ks, acc => .ok (ks, acc)
  | (k, v) :: rest, ks, acc =>
    match v with
    | .num n => runIncPairs rest (ks ++ [k]) (acc ++ [.inc k n])
    | _ => .error ("Cant increment by non-number type: " ++ k)

/-- The `$set` loop: a key already touched by an earlier operator is fatal.
-/
def runSetPairs : List (String × JSVal) → List String → List UpdOp →
    Except String (List String × List UpdOp)
  | [], ks, acc => .ok (ks, acc)
  | (k, v) :: rest, ks, acc =>
    if ks.contains k then .error ("Cant apply multiple updates to single key: " ++ k)
    else runSetPairs rest (ks ++ [k]) (acc ++ [.set k (setCoerce v)])

/-- The `$addToSet` loop: each key is re-expressed as a recursive `_update`
call whose query is the original query with the key constrained by
`$nin [v]` and whose update is `$push` of the value. -/
def runAddToSetPairs (q : JSObj) : List (String × JSVal) → List String → List UpdOp →
    Except String (List String × List UpdOp)
  | [], ks, acc => .ok (ks, acc)
  | (k, v) :: rest, ks, acc =>
    if ks.contains k then .error ("Cant apply multiple updates to single key: " ++ k)
    else
      runAddToSetPairs q rest (ks ++ [k])
        (acc ++ [.addToSet (setKey k (.obj [("$nin", .arr [v])]) q)
                   [("$push", .obj [(k, v)])]])

/-- The `$push` loop (the array-initialisation prepare statement and the
append statement together make one `push` mutation). -/
def runPushPairs : List (String × JSVal) → List String → List UpdOp →
    Except String (List String × List UpdOp)
  | [], ks, acc => .ok (ks, acc)
  | (k, v) :: rest, ks, acc =>
    if ks.contains k then .error ("Cant apply multiple updates to single key: " ++ k)
    else runPushPairs rest (ks ++ [k]) (acc ++ [.push k (pushCoerce v)])

/-- The `$pop` loop: `1` pops the last element, `-1` the first, anything
else is fatal. -/
def runPopPairs : List (String × JSVal) → List String → List UpdOp →
    Except String (List String × List UpdOp)
  | [], ks, acc => .ok (ks, acc)
  | (k, v) :: rest, ks, acc =>
    if ks.contains k then .error ("Cant apply multiple updates to single key: " ++ k)
    else if v = .num 1 then runPopPairs rest (ks ++ [k]) (acc ++ [.popLast k])
    else if v = .num (-1) then runPopPairs rest (ks ++ [k]) (acc ++ [.popFirst k])
    else .error ("Incorrect argument to pop: " ++ k)

/-- The UPDATE branch of `Collection._update`: process `$inc`, `$set`,
`$addToSet`, `$push`, `$pop` in source order, then either emit the
replacement statement (when the update document contains no `$`-prefixed key
at any depth outside arrays) or fail if no operator clause produced a
mutation. -/
def runUpdateClauses (idf : String) (q u : JSObj) : Except String (List UpdOp) := do
  let s0 ← match procOpKeys "$inc" u with
    | some pairs => runIncPairs pairs [] []
    | none => .ok ([], [])
  let s1 ← match procOpKeys "$set" u with
    | some pairs => runSetPairs pairs s0.1 s0.2
    | none => .ok s0
  let s2 ← match procOpKeys "$addToSet" u with
    | some pairs => runAddToSetPairs q pairs s1.1 s1.2
    | none => .ok s1
  let s3 ← match procOpKeys "$push" u with
    | some pairs => runPushPairs pairs s2.1 s2.2
    | none => .ok s2
  let s4 ← match procOpKeys "$pop" u with
    | some pairs => runPopPairs pairs s3.1 s3.2
    | none => .ok s3
  if containsClauses (.obj u) = false then
    .ok (s4.2 ++ [.replace (stripFields idf u)])
  else if s4.1.isEmpty then
    .error "Couldnt create update for field"
  else
    .ok s4.2

theorem getKey_cons_ne (t k : String) (v : JSVal) (o : JSObj) (h : (t == k) = false) :
    getKey t ((k, v) :: o) = getKey t o := by
  show List.lookup t ((k, v) :: o) = List.lookup t o
  rw [List.lookup, h]

theorem getKey_cons_self (t : String) (v : JSVal) (o : JSObj) :
    getKey t ((t, v) :: o) = some v := by
  show List.lookup t ((t, v) :: o) = some v
  rw [List.lookup]
  simp

theorem getKey_none_of_no_dollar (t : String) :
    ∀ o : JSObj, (∀ kv ∈ o, startsWithDollar kv.1 = false) →
      startsWithDollar t = true → getKey t o = none
  | [], _, _ => rfl
  | (k0, v0) :: rest, h, ht => by
    have hk0 : startsWithDollar k0 = false := h (k0, v0) (List.mem_cons_self _ _)
    have hne : (t == k0) = false := by
      apply beq_eq_false_iff_ne.mpr
      intro he
      rw [← he, ht] at hk0
      exact absurd hk0 (by simp)
    show List.lookup t ((k0, v0) :: rest) = none
    rw [List.lookup, hne]
    exact getKey_none_of_no_dollar t rest (fun kv hkv => h kv (List.mem_cons_of_mem _ hkv)) ht

theorem runSetPairs_ok :
    ∀ (s : List (String × JSVal)) (ks : List String) (acc : List UpdOp),
      (∀ k ∈ s.map Prod.fst, k ∉ ks) → (s.map Prod.fst).Nodup →
      runSetPairs s ks acc =
        .ok (ks ++ s.map Prod.fst, acc ++ s.map (fun kv => UpdOp.set kv.1 (setCoerce kv.2)))
  | [], ks, acc, _, _ => by simp [runSetPairs]
  | (k, v) :: rest, ks, acc, h, hnd => by
    have hk : k ∉ ks := h k (by simp)
    rw [runSetPairs, if_neg (by simpa using hk)]
    rw [List.map_cons] at hnd
    have ih := runSetPairs_ok rest (ks ++ [k]) (acc ++ [.set k (setCoerce v)])
      (by
        intro k2 hk2
        simp only [List.mem_append, List.mem_singleton]
        rintro (hin | rfl)
        · exact h k2 (by simp [hk2]) hin
        · exact (List.nodup_cons.mp hnd).1 hk2)
      (List.nodup_cons.mp hnd).2
    rw [ih]
    simp

theorem updateMixed_ok (idf : String) (q : JSObj) (s : List (String × JSVal)) (extras : JSObj)
    (hs : s ≠ []) (hnd : (s.map Prod.fst).Nodup)
    (hex : ∀ kv ∈ extras, startsWithDollar kv.1 = false) :
    runUpdateClauses idf q (("$set", JSVal.obj s) :: extras) =
      .ok (s.map fun kv => UpdOp.set kv.1 (setCoerce kv.2)) := by
  have e1 : procOpKeys "$inc" (("$set", JSVal.obj s) :: extras) = none := by
    rw [procOpKeys, getKey_cons_ne _ _ _ _ (by decide),
      getKey_none_of_no_dollar _ extras hex (by decide)]
  have e2 : procOpKeys "$set" (("$set", JSVal.obj s) :: extras) = some s := by
    rw [procOpKeys, getKey_cons_self]
    simp [JSVal.truthy, jsKeys]
  have e3 : procOpKeys "$addToSet" (("$set", JSVal.obj s) :: extras) = none := by
    rw [procOpKeys, getKey_cons_ne _ _ _ _ (by decide),
      getKey_none_of_no_dollar _ extras hex (by decide)]
  have e4 : procOpKeys "$push" (("$set", JSVal.obj s) :: extras) = none := by
    rw [procOpKeys, getKey_cons_ne _ _ _ _ (by decide),
      getKey_none_of_no_dollar _ extras hex (by decide)]
  have e5 : procOpKeys "$pop" (("$set", JSVal.obj s) :: extras) = none := by
    rw [procOpKeys, getKey_cons_ne _ _ _ _ (by decide),
      getKey_none_of_no_dollar _ extras hex (by decide)]
  have hcc : containsClauses (.obj (("$set", JSVal.obj s) :: extras)) = true := by
    rw [containsClauses, containsClausesFields]
    simp [show startsWithDollar "$set" = true from by decide]
  have hrun := runSetPairs_ok s [] [] (by simp) hnd
  have hne : (s.map Prod.fst).isEmpty = false := by
    cases s with
    | nil => exact absurd rfl hs
    | cons a l => rfl
  rw [runUpdateClauses]
  rw [e1, e2, e3, e4, e5]
  simp only [Except.bind, bind]
  rw [hrun]
  simp only [List.nil_append, Except.bind]
  rw [hcc]
  simp only [Bool.true_eq_false, if_neg]
  rw [hne]
  simp

theorem updateUnsupported_error (idf : String) (q : JSObj) (u : JSObj)
    (hcc : containsClauses (.obj u) = true)
    (h1 : getKey "$inc" u = none) (h2 : getKey "$set" u = none)
    (h3 : getKey "$addToSet" u = none) (h4 : getKey "$push" u = none)
    (h5 : getKey "$pop" u = none) :
    runUpdateClauses idf q u = .error "Couldnt create update for field" := by
  rw [runUpdateClauses]
  simp only [procOpKeys, h1, h2, h3, h4, h5]
  simp only [Except.bind, bind]
  rw [hcc]
  simp

/-- Claim C6 counterexample: an update mixing the operator key `$set` with
the non-operator key `b` at the top level is NOT rejected — `_update`
processes the `$set` clause and silently ignores `b`, contradicting the
claim that such a mixture fails with an error. -/
theorem mixed_update_silently_accepted :
    runUpdateClauses "_id" [] [("$set", JSVal.obj [("a", JSVal.num 1)]), ("b", JSVal.num 2)] =
      .ok [.set "a" (.num 1)] := rfl

/-- Claim C6 (amended): non-operator keys mixed with operator keys at the
top level are silently ignored, not an error — a well-formed `$set` clause
together with arbitrary non-`$` extra keys succeeds and applies exactly the
`$set` mutations; an error is raised only when the update contains a
`$`-prefixed key (at some depth outside arrays, per `containsClauses`) while
none of the five supported operator clauses is present, which covers an
update whose only top-level `$`-key is outside the supported set. -/
theorem update_mixed_keys_behavior (idf : String) (q : JSObj) :
    (∀ (s : List (String × JSVal)) (extras : JSObj), s ≠ [] →
      (s.map Prod.fst).Nodup → (∀ kv ∈ extras, startsWithDollar kv.1 = false) →
      runUpdateClauses idf q (("$set", JSVal.obj s) :: extras) =
        .ok (s.map fun kv => UpdOp.set kv.1 (setCoerce kv.2))) ∧
    (∀ u : JSObj, containsClauses (.obj u) = true →
      getKey "$inc" u = none → getKey "$set" u = none → getKey "$addToSet" u = none →
      getKey "$push" u = none → getKey "$pop" u = none →
      runUpdateClauses idf q u = .error "Couldnt create update for field") :=
  ⟨fun s extras hs hnd hex => updateMixed_ok idf q s extras hs hnd hex,
   fun u hcc h1 h2 h3 h4 h5 => updateUnsupported_error idf q u hcc h1 h2 h3 h4 h5⟩

theorem update_mixed_keys_behavior_witness :
    runUpdateClauses "_id" [] [("$set", JSVal.obj [("x", JSVal.num 7)]), ("y", JSVal.str "z")] =
      .ok [.set "x" (.num 7)] ∧
    runUpdateClauses "_id" [] [("$foo", JSVal.obj [("a", JSVal.num 1)])] =
      .error "Couldnt create update for field" :=
  ⟨(update_mixed_keys_behavior "_id" []).1 [("x", JSVal.num 7)] [("y", JSVal.str "z")]
      (by decide) (by decide) (by decide),
   (update_mixed_keys_behavior "_id" []).2 [("$foo", JSVal.obj [("a", JSVal.num 1)])]
      (by decide) (by decide) (by decide) (by decide) (by decide) (by decide)⟩

/- ### `$inc` semantics (the statement
`UPDATE ... SET document = json_set(document, '$.k',
coalesce(json_extract(document, '$.k'), 0) + ?) WHERE ...`) -/

/-- `coalesce(json_extract(document, '$.k'), 0)` as an integer: a missing
member and JSON `null` both extract to SQL NULL and coalesce to 0; numbers
extract to themselves; booleans extract to 0/1 (SQLite stores JSON booleans
as integers); other shapes coerce to 0 under SQLite `+` (the numeric-prefix
coercion of strings is not modelled — the claim only concerns numeric, null
or absent fields). -/
def extractBase (k : String) (d : JSObj) : Int :=
  match getKey k d with
  | none => 0
  | some .null => 0
  | some (.num m) => m
  | some (.bool b) => if b then 1 else 0
  | some (.str _) => 0
  | some (.arr _) => 0
  | some (.obj _) => 0

/-- Effect of the `$inc` statement on one selected row. -/
def incDocField (k : String) (n : Int) (d : JSObj) : JSObj :=
  setKey k (.num (extractBase k d + n)) d

/-- The `$inc` loop over the clause pairs, applied to the selected rows:
each numeric pair updates every selected row, a non-numeric pair raises
before issuing its statement. -/
def applyIncPairsDocs : List (String × JSVal) → List JSObj → Except String (List JSObj)
  | [], docs => .ok docs
  | (k, v) :: rest, docs =>
    match v with
    | .num n => applyIncPairsDocs rest (docs.map (incDocField k n))
    | _ => .error ("Cant increment by non-number type: " ++ k)

/-- `update` runs `_update` inside `withinTransaction`: on success the new
rows commit, on failure the transaction rolls back (rows revert) and the
error is re-raised. -/
def updateIncTransaction (pairs : List (String × JSVal)) (docs : List JSObj) :
    List JSObj × Option String :=
  match applyIncPairsDocs pairs docs with
  | .ok ds => (ds, none)
  | .error e => (docs, some e)

/-- Claim C5: an update clause `$inc: {k: n}` with numeric `n` makes each
selected row's `k` its previous numeric value plus `n`, with a missing or
JSON-null `k` treated as base 0; a non-numeric increment raises an error
and, the statement running inside the transaction, leaves the selected rows
unchanged. -/
theorem inc_clause_adds_with_base_zero (k : String) (n : Int) (docs : List JSObj)
    (h : ∀ d ∈ docs, getKey k d = none ∨ getKey k d = some .null ∨
      ∃ m, getKey k d = some (.num m)) :
    updateIncTransaction [(k, .num n)] docs =
      (docs.map (fun d =>
        setKey k (.num ((match getKey k d with
                         | some (.num m) => m
                         | _ => 0) + n)) d), none) ∧
    ∀ v : JSVal, (∀ m : Int, v ≠ .num m) →
      updateIncTransaction [(k, v)] docs =
        (docs, some ("Cant increment by non-number type: " ++ k)) := by
  constructor
  · have happ : applyIncPairsDocs [(k, .num n)] docs = .ok (docs.map (incDocField k n)) := by
      rw [applyIncPairsDocs, applyIncPairsDocs]
    rw [updateIncTransaction, happ]
    have hmap : docs.map (incDocField k n) =
        docs.map (fun d =>
          setKey k (.num ((match getKey k d with
                           | some (JSVal.num m) => m
                           | _ => 0) + n)) d) := by
      apply List.map_congr_left
      intro d hd
      rw [incDocField]
      rcases h d hd with h0 | h0 | ⟨m, h0⟩ <;> rw [extractBase, h0]
    rw [hmap]
  · intro v hv
    rw [updateIncTransaction]
    cases v with
    | num m => exact absurd rfl (hv m)
    | null => rfl
    | bool b => rfl
    | str s => rfl
    | arr xs => rfl
    | obj fs => rfl

theorem inc_clause_adds_with_base_zero_witness :
    updateIncTransaction [("age", .num 1)]
        [[("age", JSVal.num 10)], [("name", JSVal.str "Marge")]] =
      ([[("age", JSVal.num 11)], [("name", JSVal.str "Marge"), ("age", JSVal.num 1)]],
        none) ∧
    updateIncTransaction [("age", JSVal.str "x")]
        [[("age", JSVal.num 10)], [("name", JSVal.str "Marge")]] =
      ([[("age", JSVal.num 10)], [("name", JSVal.str "Marge")]],
        some "Cant increment by non-number type: age") := by
  have h := inc_clause_adds_with_base_zero "age" 1
    [[("age", JSVal.num 10)], [("name", JSVal.str "Marge")]]
    (by
      intro d hd
      rcases List.mem_cons.mp hd with rfl | hd2
      · right; right; exact ⟨10, rfl⟩
      · rcases List.mem_cons.mp hd2 with rfl | hd3
        · left; rfl
        · cases hd3)
  exact ⟨h.1, h.2 (JSVal.str "x") (by intro m hm; cases hm)⟩

/- ### A small semantics of the emitted SQL fragment -/

/-- SQL storage values relevant here: NULL, integers, text.  SQLite maps
JSON booleans to the integers 0/1 on extraction; JSON null and missing
paths both extract to NULL; nested arrays/objects extract to their JSON
text. -/
inductive SQLVal : Type where
  | null : SQLVal
  | int (n : Int) : SQLVal
  | text (s : String) : SQLVal
deriving Repr, DecidableEq

/-- The SQL value of a JSON value, as produced by `json_extract`, by
`json_each(...).value`, and by binding the value as a statement parameter
(node-sqlite3 binds booleans as 0/1). -/
def jsToSQL : JSVal → SQLVal
  | .null => .null
  | .bool b => .int (if b then 1 else 0)
  | .num n => .int n
  | .str s => .text s
  | .arr xs => .text (jsonStringify (.arr xs))
  | .obj fs => .text (jsonStringify (.obj fs))

/-- SQL `IS`: null-safe equality. -/
def sqlIs (a b : SQLVal) : Bool := a == b

/-- SQL `=` / `IN` element comparison: NULL matches nothing. -/
def sqlEq : SQLVal → SQLVal → Bool
  | .null, _ => false
  | _, .null => false
  | a, b => a == b

/-- `json_extract(document, '$.k')` on a stored document. -/
def jsonExtractSQL (k : String) (d : JSObj) : SQLVal :=
  match getKey k d with
  | none => .null
  | some v => jsToSQL v

/-- The rows of `json_each(json_extract(document, '$.k'))`: none for a
missing member or JSON null, the elements for an array, the member values
for an object, a single row for a scalar. -/
def jsonEachElems : Option JSVal → List JSVal
  | none => []
  | some .null => []
  | some (.arr xs) => xs
  | some (.obj fs) => fs.map Prod.snd
  | some v => [v]

/- ### Claim C2 : equality compiles through IS and null matches missing -/

/-- The parameter list contributed by an equality leaf with operand `w`
(`filterOperand` flattened by `Query.values`). -/
def eqLeafParams (w : JSVal) : List JSVal :=
  match filterOperand w with
  | .arr l => l
  | v => [v]

/-- Parameter binding for the single `?` of an equality leaf: the first
value if any; with no value the placeholder stays unbound, which sqlite
reads as NULL. -/
def bindFirstParam (params : List JSVal) : SQLVal :=
  match params with
  | [] => .null
  | p :: _ => jsToSQL p

/-- Evaluation of the compiled fragment
`json_extract(document, '$.k') IS ?` on one stored document. -/
def evalEqLeafRow (k : String) (w : JSVal) (d : JSObj) : Bool :=
  sqlIs (jsonExtractSQL k d) (bindFirstParam (eqLeafParams w))

/-- `find({k: w})` over the stored documents (single equality-leaf query:
no join, `SELECT DISTINCT` returns each matching row once, in order). -/
def findEqLeaf (k : String) (w : JSVal) (rows : List JSObj) : List JSObj :=
  rows.filter (evalEqLeafRow k w)

/-- `k` is JSON null or absent in the document. -/
def isNullOrMissing (k : String) (d : JSObj) : Bool :=
  match getKey k d with
  | none => true
  | some .null => true
  | some _ => false

theorem evalEqLeafRow_null (k : String) (d : JSObj) :
    evalEqLeafRow k .null d = isNullOrMissing k d := by
  rw [evalEqLeafRow, isNullOrMissing, jsonExtractSQL]
  cases h : getKey k d with
  | none => rfl
  | some v => cases v <;> rfl

/-- Claim C2: equality compiles through SQL `IS` (`operatorMap['$eq']`), a
`{k: null}` query binds no parameter so the emitted `?` reads as NULL, and
`find({k: null})` returns exactly the stored documents whose `k` is JSON
null or absent; on the three test rows, each of `find({boolitem:true})`,
`find({boolitem:false})` and `find({boolitem:null})` returns exactly one
document, the last matching the row that lacks the field. -/
theorem null_equality_matches_null_or_missing (k : String) (env : QEnv) (c : Nat)
    (rows : List JSObj) (henv : env.nonJSONFields k = none) :
    formatOperator none = "IS" ∧
    partToString env (.mk (some k) none .null []) "" c =
      .ok (⟨"(json_extract(document, \"$." ++ k ++ "\")  IS ?)", .arr [], none⟩, c) ∧
    findEqLeaf k .null rows = rows.filter (isNullOrMissing k) ∧
    findEqLeaf "boolitem" (.bool true)
        [[("boolitem", JSVal.bool true)], [("boolitem", JSVal.bool false)],
         [("something", JSVal.str "foo")]] = [[("boolitem", JSVal.bool true)]] ∧
    findEqLeaf "boolitem" (.bool false)
        [[("boolitem", JSVal.bool true)], [("boolitem", JSVal.bool false)],
         [("something", JSVal.str "foo")]] = [[("boolitem", JSVal.bool false)]] ∧
    findEqLeaf "boolitem" .null
        [[("boolitem", JSVal.bool true)], [("boolitem", JSVal.bool false)],
         [("something", JSVal.str "foo")]] = [[("something", JSVal.str "foo")]] := by
  refine ⟨rfl, ?_, ?_, rfl, rfl, rfl⟩
  · simp only [partToString]
    simp [littoJSON, henv, formatOperator, filterOperand, String.append_assoc]
    rw [← String.append_assoc]
    rfl
  · rw [findEqLeaf]
    apply List.filter_congr
    intro d _
    exact evalEqLeafRow_null k d

theorem null_equality_matches_null_or_missing_witness :
    partToString ⟨"test", fun _ => none, fun _ => none, fun _ => "u"⟩
        (.mk (some "boolitem") none .null []) "" 0 =
      .ok (⟨"(json_extract(document, \"$.boolitem\")  IS ?)", .arr [], none⟩, 0) ∧
    findEqLeaf "boolitem" .null
        [[("boolitem", JSVal.bool true)], [("boolitem", JSVal.bool false)],
         [("something", JSVal.str "foo")]] = [[("something", JSVal.str "foo")]] := by
  have h := null_equality_matches_null_or_missing "boolitem"
    ⟨"test", fun _ => none, fun _ => none, fun _ => "u"⟩ 0 [] rfl
  exact ⟨h.2.1, h.2.2.2.2.2⟩

/- ### Claim C4 : `$addToSet` -/

/-- Whether one stored document satisfies the augmented predicate
`{k: {$nin: [v]}}` — the compiled
`_id NOT IN (SELECT _id FROM C, json_each(json_extract(document,'$.k'))
WHERE value IN (?))`: no expansion row of `k` may SQL-equal the bound
value. -/
def ninMatches (k : String) (v : JSVal) (d : JSObj) : Bool :=
  !((jsonEachElems (getKey k d)).any fun e => sqlEq (jsToSQL e) (jsToSQL v))

/-- Effect of the two `$push` statements on one selected document:
initialize `$.k` to an empty array where it is NULL/absent, then append at
index `json_array_length`.  For a non-array, non-null existing member the
append path does not exist and the document is unchanged (not exercised by
the claim). -/
def pushApply (k : String) (v : JSVal) (d : JSObj) : JSObj :=
  match getKey k d with
  | none => setKey k (.arr [v]) d
  | some .null => setKey k (.arr [v]) d
  | some (.arr xs) => setKey k (.arr (xs ++ [v])) d
  | some _ => d

/-- One `$addToSet` application to a document matching the original query:
the recursive `_update` matches the document only if it also satisfies the
`$nin` augmentation, and then pushes the (`$push`-coerced) value. -/
def addToSetStep (k : String) (v : JSVal) (d : JSObj) : JSObj :=
  if ninMatches k v d then pushApply k (pushCoerce v) d else d

/-- `n` successive `$addToSet` applications. -/
def addToSetIter (k : String) (v : JSVal) : Nat → JSObj → JSObj
  | 0, d => d
  | n + 1, d => addToSetIter k v n (addToSetStep k v d)

/-- Number of occurrences of `v` in the array at `k` (0 when `k` is not an
array). -/
def arrCount (k : String) (v : JSVal) (d : JSObj) : Nat :=
  match getKey k d with
  | some (.arr xs) => xs.count v
  | _ => 0

/-- Invariant reached after one `$addToSet`: `k` holds an array whose
elements SQL-compare to `v` exactly when they are structurally `v`, and `v`
occurs exactly once. -/
def addToSetGood (k : String) (v : JSVal) (d : JSObj) : Prop :=
  ∃ xs, getKey k d = some (.arr xs) ∧
    (∀ e ∈ xs, (sqlEq (jsToSQL e) (jsToSQL v) = true ↔ e = v)) ∧
    xs.count v = 1

theorem sqlEq_refl_scalar (v : JSVal)
    (hv : (∃ s, v = .str s) ∨ (∃ m, v = .num m)) :
    sqlEq (jsToSQL v) (jsToSQL v) = true := by
  rcases hv with ⟨s, rfl⟩ | ⟨m, rfl⟩ <;> simp [jsToSQL, sqlEq]

theorem pushCoerce_scalar (v : JSVal)
    (hv : (∃ s, v = .str s) ∨ (∃ m, v = .num m)) :
    pushCoerce v = v := by
  rcases hv with ⟨s, rfl⟩ | ⟨m, rfl⟩ <;> rfl

theorem addToSetStep_establishes (k : String) (v : JSVal) (d : JSObj)
    (hv : (∃ s, v = .str s) ∨ (∃ m, v = .num m))
    (hd : getKey k d = none ∨ getKey k d = some .null ∨
      ∃ xs, getKey k d = some (.arr xs) ∧
        (∀ e ∈ xs, (sqlEq (jsToSQL e) (jsToSQL v) = true ↔ e = v)) ∧
        xs.count v ≤ 1) :
    addToSetGood k v (addToSetStep k v d) := by
  have hrefl := sqlEq_refl_scalar v hv
  have hpc := pushCoerce_scalar v hv
  rcases hd with h0 | h0 | ⟨xs, h0, hcompat, hcount⟩
  · refine ⟨[v], ?_, ?_, ?_⟩
    · rw [addToSetStep, if_pos (by rw [ninMatches, jsonEachElems.eq_def, h0]; rfl),
        pushApply, h0, hpc]
      exact getKey_setKey k _ d
    · intro e he
      rw [List.mem_singleton] at he
      subst he
      simp [hrefl]
    · simp
  · refine ⟨[v], ?_, ?_, ?_⟩
    · rw [addToSetStep, if_pos (by rw [ninMatches, jsonEachElems.eq_def, h0]; rfl),
        pushApply, h0, hpc]
      exact getKey_setKey k _ d
    · intro e he
      rw [List.mem_singleton] at he
      subst he
      simp [hrefl]
    · simp
  · by_cases hany : xs.any (fun e => sqlEq (jsToSQL e) (jsToSQL v)) = true
    · have hvmem : v ∈ xs := by
        rcases List.any_eq_true.mp hany with ⟨e, he, heq⟩
        exact (hcompat e he).mp heq ▸ he
      have hone : xs.count v = 1 :=
        le_antisymm hcount (List.count_pos_iff.mpr hvmem)
      have hstep : addToSetStep k v d = d := by
        rw [addToSetStep, if_neg]
        rw [ninMatches, jsonEachElems.eq_def, h0]
        simpa using hany
      rw [hstep]
      exact ⟨xs, h0, hcompat, hone⟩
    · have hnotmem : v ∉ xs := by
        intro hmem
        exact hany (List.any_eq_true.mpr ⟨v, hmem, hrefl⟩)
      refine ⟨xs ++ [v], ?_, ?_, ?_⟩
      · rw [addToSetStep, if_pos (by rw [ninMatches, jsonEachElems.eq_def, h0]; simpa using hany),
          pushApply, h0, hpc]
        exact getKey_setKey k _ d
      · intro e he
        rcases List.mem_append.mp he with he2 | he2
        · exact hcompat e he2
        · rw [List.mem_singleton] at he2
          subst he2
          simp [hrefl]
      · rw [List.count_append, List.count_eq_zero_of_not_mem hnotmem]
        simp

theorem addToSetStep_preserves (k : String) (v : JSVal) (d : JSObj)
    (hg : addToSetGood k v d) : addToSetStep k v d = d := by
  rcases hg with ⟨xs, h0, hcompat, hone⟩
  have hvmem : v ∈ xs := List.count_pos_iff.mp (by omega)
  have hany : xs.any (fun e => sqlEq (jsToSQL e) (jsToSQL v)) = true :=
    List.any_eq_true.mpr ⟨v, hvmem, (hcompat v hvmem).mpr rfl⟩
  rw [addToSetStep, if_neg]
  rw [ninMatches, jsonEachElems.eq_def, h0]
  simpa using hany

theorem addToSetIter_fixed (k : String) (v : JSVal) :
    ∀ (m : Nat) (d : JSObj), addToSetGood k v d → addToSetIter k v m d = d
  | 0, _, _ => rfl
  | m + 1, d, hg => by
    rw [addToSetIter, addToSetStep_preserves k v d hg, addToSetIter_fixed k v m d hg]

theorem addToSet_clause_structure (idf : String) (q : JSObj) (k : String) (v : JSVal) :
    runUpdateClauses idf q [("$addToSet", JSVal.obj [(k, v)])] =
      .ok [.addToSet (setKey k (.obj [("$nin", .arr [v])]) q)
             [("$push", .obj [(k, v)])]] := by
  have e1 : procOpKeys "$inc" [("$addToSet", JSVal.obj [(k, v)])] = none := by
    rw [procOpKeys, getKey_cons_ne _ _ _ _ (by decide)]
    rfl
  have e2 : procOpKeys "$set" [("$addToSet", JSVal.obj [(k, v)])] = none := by
    rw [procOpKeys, getKey_cons_ne _ _ _ _ (by decide)]
    rfl
  have e3 : procOpKeys "$addToSet" [("$addToSet", JSVal.obj [(k, v)])] = some [(k, v)] := by
    rw [procOpKeys, getKey_cons_self]
    simp [JSVal.truthy, jsKeys]
  have e4 : procOpKeys "$push" [("$addToSet", JSVal.obj [(k, v)])] = none := by
    rw [procOpKeys, getKey_cons_ne _ _ _ _ (by decide)]
    rfl
  have e5 : procOpKeys "$pop" [("$addToSet", JSVal.obj [(k, v)])] = none := by
    rw [procOpKeys, getKey_cons_ne _ _ _ _ (by decide)]
    rfl
  have hcc : containsClauses (.obj [("$addToSet", JSVal.obj [(k, v)])]) = true := by
    rw [containsClauses, containsClausesFields]
    simp [show startsWithDollar "$addToSet" = true from by decide]
  rw [runUpdateClauses]
  rw [e1, e2, e3, e4, e5]
  simp only [Except.bind, bind]
  rw [runAddToSetPairs, if_neg (by simp)]
  rw [runAddToSetPairs]
  simp only [Except.bind]
  rw [hcc]
  simp

/-- Claim C4 counterexample: on a document whose array already holds the
value twice, one `$addToSet` of that value is a no-op and the count stays 2,
so "any number of `$addToSet` leaves the value exactly once" fails as
stated. -/
theorem addToSet_on_duplicate_array_not_once :
    addToSetIter "hobbies" (.str "x") 1
        [("hobbies", JSVal.arr [.str "x", .str "x"])] =
      [("hobbies", JSVal.arr [.str "x", .str "x"])] ∧
    arrCount "hobbies" (.str "x")
        (addToSetIter "hobbies" (.str "x") 1
          [("hobbies", JSVal.arr [.str "x", .str "x"])]) = 2 := by
  exact ⟨rfl, rfl⟩

/-- Claim C4 (amended): the `$addToSet` branch of `_update` is realized by a
recursive call whose query is the original query with `k` bound to
`{$nin: [v]}` and whose update is `{$push: {k: v}}`; and for a string or
number `v`, on a matched document whose `k` is absent, null, or an array
that contains `v` at most once (and whose elements SQL-compare to `v` only
when structurally equal), any positive number of `$addToSet` applications
leaves the array containing `v` exactly once. -/
theorem addToSet_exactly_once (idf : String) (q : JSObj) (k : String) (v : JSVal)
    (d : JSObj)
    (hv : (∃ s, v = .str s) ∨ (∃ m, v = .num m))
    (hd : getKey k d = none ∨ getKey k d = some .null ∨
      ∃ xs, getKey k d = some (.arr xs) ∧
        (∀ e ∈ xs, (sqlEq (jsToSQL e) (jsToSQL v) = true ↔ e = v)) ∧
        xs.count v ≤ 1) :
    runUpdateClauses idf q [("$addToSet", JSVal.obj [(k, v)])] =
      .ok [.addToSet (setKey k (.obj [("$nin", .arr [v])]) q)
             [("$push", .obj [(k, v)])]] ∧
    ∀ n : Nat, 1 ≤ n → arrCount k v (addToSetIter k v n d) = 1 := by
  refine ⟨addToSet_clause_structure idf q k v, ?_⟩
  intro n hn
  obtain ⟨m, rfl⟩ : ∃ m, n = m + 1 := ⟨n - 1, by omega⟩
  rw [addToSetIter]
  have hg := addToSetStep_establishes k v d hv hd
  rw [addToSetIter_fixed k v m _ hg]
  rcases hg with ⟨xs, h0, _, hone⟩
  rw [arrCount, h0]
  exact hone

theorem addToSet_exactly_once_witness :
    runUpdateClauses "_id" [("firstname", JSVal.str "Homer")]
        [("$addToSet", JSVal.obj [("hobbies", JSVal.str "TV")])] =
      .ok [.addToSet
             [("firstname", JSVal.str "Homer"),
              ("hobbies", JSVal.obj [("$nin", JSVal.arr [JSVal.str "TV"])])]
             [("$push", JSVal.obj [("hobbies", JSVal.str "TV")])]] ∧
    arrCount "hobbies" (JSVal.str "TV")
        (addToSetIter "hobbies" (JSVal.str "TV") 3
          [("hobbies", JSVal.arr [JSVal.str "drinking"])]) = 1 := by
  have h := addToSet_exactly_once "_id" [("firstname", JSVal.str "Homer")]
    "hobbies" (JSVal.str "TV") [("hobbies", JSVal.arr [JSVal.str "drinking"])]
    (Or.inl ⟨"TV", rfl⟩)
    (by
      right; right
      exact ⟨[JSVal.str "drinking"], rfl, by decide, by decide⟩)
  exact ⟨h.1, h.2 3 (by omega)⟩

/- ### Claim C3 : the upsert branch of Collection._update -/

/-- Truthiness of a JavaScript property read (`undefined` is falsy). -/
def truthyOpt : Option JSVal → Bool
  | some v => v.truthy
  | none => false

/-- The replacement-upsert insertion: `const id = update[idField] ||
q[idField]`, then `if (!update[idField] && id) update[idField] = id`, then
`insert(update)` which assigns `doc[idField] || uuid.v4()` and stores the
document.  Returns the document as passed to `insert` (with its identifier
member set) and the identifier used. -/
def upsertInsertedDoc (idf : String) (q u : JSObj) (freshId : String) :
    JSObj × JSVal :=
  let uid := getKey idf u
  let id0 := if truthyOpt uid then uid else getKey idf q
  let u1 := if !truthyOpt uid && truthyOpt id0 then setKey idf (id0.getD .null) u else u
  let finalId := if truthyOpt (getKey idf u1) then (getKey idf u1).getD .null
    else .str freshId
  (setKey idf finalId u1, finalId)

/-- The operator-upsert seed: `filterClauses(q)`, which `insert` then
extends with its assigned identifier (`seed[idField] || uuid.v4()`). -/
def seedWithId (idf : String) (q : JSObj) (freshId : String) : JSObj :=
  let s0 := filterClausesFields q
  let sid := if truthyOpt (getKey idf s0) then (getKey idf s0).getD .null
    else JSVal.str freshId
  setKey idf sid s0

/-- What the upsert branch of `_update` does. -/
inductive UpsertAction : Type where
  | normalUpdate
  | insertReplacement (doc : JSObj)
  | insertSeedThenUpdate (seed : JSObj) (recursiveUpdate : JSObj) (multi upsert : Bool)
deriving Repr, DecidableEq

/-- The upsert branch: fall through to the normal update when the probe
found a row; otherwise insert the replacement document or insert the
`$`-stripped seed and recursively update it with `{multi:false,
upsert:false}`. -/
def upsertAction (idf : String) (q u : JSObj) (matched : Bool) (freshId : String) :
    UpsertAction :=
  if matched then .normalUpdate
  else if containsClauses (.obj u) = false then
    .insertReplacement (upsertInsertedDoc idf q u freshId).1
  else
    .insertSeedThenUpdate (seedWithId idf q freshId) u false false

mutual
theorem containsClauses_filterClauses : ∀ v : JSVal, containsClauses (filterClauses v) = false
  | .null => rfl
  | .bool _ => rfl
  | .num _ => rfl
  | .str _ => rfl
  | .arr _ => rfl
  | .obj fs => by
    rw [filterClauses, containsClauses]
    exact containsClausesFields_filterClausesFields fs

theorem containsClausesFields_filterClausesFields :
    ∀ fs : List (String × JSVal), containsClausesFields (filterClausesFields fs) = false
  | [] => rfl
  | (k, v) :: rest => by
    by_cases h : startsWithDollar k = true
    · rw [filterClausesFields, if_pos h]
      exact containsClausesFields_filterClausesFields rest
    · rw [filterClausesFields, if_neg h, containsClausesFields,
        containsClauses_filterClauses v, containsClausesFields_filterClausesFields rest]
      simp [Bool.eq_false_iff.mpr h]
end

theorem setKey_setKey (k : String) (a b : JSVal) :
    ∀ o : JSObj, setKey k a (setKey k b o) = setKey k a o
  | [] => by simp [setKey]
  | (k0, v0) :: rest => by
    by_cases h : k0 = k
    · simp [setKey, h]
    · simp only [setKey, if_neg h]
      rw [setKey_setKey k a b rest]

theorem truthyOpt_some (v : JSVal) : truthyOpt (some v) = v.truthy := rfl

theorem truthyOpt_none : truthyOpt none = false := rfl

theorem upsertInsertedDoc_id_preference (idf : String) (q u : JSObj) (freshId : String) :
    (upsertInsertedDoc idf q u freshId).2 =
      (if truthyOpt (getKey idf u) then (getKey idf u).getD .null
       else if truthyOpt (getKey idf q) then (getKey idf q).getD .null
       else .str freshId) ∧
    (upsertInsertedDoc idf q u freshId).1 =
      setKey idf (upsertInsertedDoc idf q u freshId).2 u := by
  by_cases h1 : truthyOpt (getKey idf u) = true
  · constructor <;> simp [upsertInsertedDoc, h1]
  · have h1f : truthyOpt (getKey idf u) = false := by simpa using h1
    by_cases h2 : truthyOpt (getKey idf q) = true
    · cases hq : getKey idf q with
      | none => rw [hq] at h2; exact absurd h2 (by simp [truthyOpt])
      | some w =>
        rw [hq] at h2
        have hw : w.truthy = true := by simpa [truthyOpt_some] using h2
        constructor
        · simp [upsertInsertedDoc, h1f, hq, truthyOpt_some, hw, getKey_setKey]
        · simp [upsertInsertedDoc, h1f, hq, truthyOpt_some, hw, getKey_setKey,
            setKey_setKey]
    · have h2f : truthyOpt (getKey idf q) = false := by simpa using h2
      constructor <;> simp [upsertInsertedDoc, h1f, h2f]

/-- Claim C3 counterexample: with query `{a: [{$x: 1}]}` and operator update
`{$set: {b: 2}}` matching nothing, the inserted seed still contains the
`$`-prefixed key `$x` — `filterClauses` does not look inside arrays, so not
every nested `$`-prefixed key is removed as the claim states. -/
theorem upsert_seed_keeps_dollar_keys_in_arrays :
    upsertAction "_id" [("a", JSVal.arr [JSVal.obj [("$x", JSVal.num 1)]])]
        [("$set", JSVal.obj [("b", JSVal.num 2)])] false "fresh" =
      .insertSeedThenUpdate
        [("a", JSVal.arr [JSVal.obj [("$x", JSVal.num 1)]]), ("_id", JSVal.str "fresh")]
        [("$set", JSVal.obj [("b", JSVal.num 2)])] false false ∧
    hasKeyFields "$x"
        [("a", JSVal.arr [JSVal.obj [("$x", JSVal.num 1)]]), ("_id", JSVal.str "fresh")] =
      true :=
  ⟨rfl, rfl⟩

/-- Claim C3 (amended): on an upsert whose probe matched no row, `_update`
checks `containsClauses(u)` (which looks through nested objects but not into
arrays): when false, `u` itself is inserted with its identifier ensured —
preferring a truthy `u[idField]`, else a truthy `q[idField]`, else a fresh
identifier; otherwise the seed `filterClauses(q)` — `q` with `$`-prefixed
keys removed from objects at every depth but with arrays kept verbatim — is
inserted (gaining an identifier) and `update(seed, u, {multi:false,
upsert:false})` is applied to it.  The seed contains no `$`-prefixed key
outside arrays. -/
theorem upsert_no_match_behavior (idf : String) (q u : JSObj) (freshId : String) :
    (containsClauses (.obj u) = false →
      upsertAction idf q u false freshId =
        .insertReplacement (setKey idf (upsertInsertedDoc idf q u freshId).2 u)) ∧
    (upsertInsertedDoc idf q u freshId).2 =
      (if truthyOpt (getKey idf u) then (getKey idf u).getD .null
       else if truthyOpt (getKey idf q) then (getKey idf q).getD .null
       else .str freshId) ∧
    (containsClauses (.obj u) = true →
      upsertAction idf q u false freshId =
        .insertSeedThenUpdate (seedWithId idf q freshId) u false false) ∧
    containsClausesFields (filterClausesFields q) = false := by
  obtain ⟨hpref, hdoc⟩ := upsertInsertedDoc_id_preference idf q u freshId
  refine ⟨?_, hpref, ?_, containsClausesFields_filterClausesFields q⟩
  · intro h
    rw [upsertAction, if_neg (by simp), if_pos h, hdoc]
  · intro h
    rw [upsertAction, if_neg (by simp)]
    rw [h]
    simp

theorem upsert_no_match_behavior_witness :
    upsertAction "_id" [("firstname", JSVal.str "Ned"), ("lastname", JSVal.str "Flanders")]
        [("$push", JSVal.obj [("hobbies", JSVal.str "church")])] false "id1" =
      .insertSeedThenUpdate
        [("firstname", JSVal.str "Ned"), ("lastname", JSVal.str "Flanders"),
         ("_id", JSVal.str "id1")]
        [("$push", JSVal.obj [("hobbies", JSVal.str "church")])] false false ∧
    upsertAction "_id" [("custom", JSVal.str "foo")] [("other", JSVal.str "bar")]
        false "id2" =
      .insertReplacement [("other", JSVal.str "bar"), ("_id", JSVal.str "id2")] :=
  ⟨(upsert_no_match_behavior "_id"
      [("firstname", JSVal.str "Ned"), ("lastname", JSVal.str "Flanders")]
      [("$push", JSVal.obj [("hobbies", JSVal.str "church")])] "id1").2.2.1 (by decide),
   (upsert_no_match_behavior "_id" [("custom", JSVal.str "foo")]
      [("other", JSVal.str "bar")] "id2").1 (by decide)⟩

/- ### Claim C1 : placeholders versus bound values -/

theorem countQ_append (a b : String) : countQ (a ++ b) = countQ a + countQ b := by
  rw [countQ, countQ, countQ, String.data_append, List.count_append]

theorem countQ_joinSep (sep : String) (hsep : countQ sep = 0) :
    ∀ l : List String, countQ (joinSep sep l) = (l.map countQ).sum
  | [] => by simp [joinSep, countQ]
  | [s] => by simp [joinSep]
  | s :: s2 :: rest => by
    have hunf : joinSep sep (s :: s2 :: rest) = s ++ sep ++ joinSep sep (s2 :: rest) := rfl
    rw [hunf, countQ_append, countQ_append, hsep,
      countQ_joinSep sep hsep (s2 :: rest)]
    simp only [List.map_cons, List.sum_cons]
    omega

/-- Operand shapes whose `formatOperand` placeholder and whose survival of
`filterOperand` agree one-to-one: truthy scalars. -/
def scalarTruthy : JSVal → Bool
  | .bool b => b
  | .num n => n != 0
  | .str s => s != ""
  | _ => false

theorem filterOperand_scalar (v : JSVal) (h : scalarTruthy v = true) :
    filterOperand v = v ∧ (filterOperand v).truthy = true := by
  cases v with
  | bool b => cases b with
    | true => exact ⟨rfl, rfl⟩
    | false => exact absurd h (by decide)
  | num n =>
    refine ⟨rfl, ?_⟩
    simpa [filterOperand, JSVal.truthy, scalarTruthy] using h
  | str s =>
    refine ⟨rfl, ?_⟩
    simpa [filterOperand, JSVal.truthy, scalarTruthy] using h
  | null => exact absurd h (by decide)
  | arr xs => exact absurd h (by simp [scalarTruthy])
  | obj fs => exact absurd h (by simp [scalarTruthy])

theorem filterOperandList_id :
    ∀ xs : List JSVal, xs.all scalarTruthy = true → filterOperandList xs = xs
  | [], _ => rfl
  | x :: rest, h => by
    rw [List.all_cons, Bool.and_eq_true] at h
    obtain ⟨he, ht⟩ := filterOperand_scalar x h.1
    rw [he] at ht
    rw [filterOperandList, he, if_pos ht, filterOperandList_id rest h.2]
    rfl

theorem countQ_formatOperand_scalar (v : JSVal) (h : scalarTruthy v = true) :
    countQ (formatOperand v) = 1 := by
  cases v with
  | bool b => rw [show formatOperand (JSVal.bool b) = "?" from rfl]; decide
  | num n => rw [show formatOperand (JSVal.num n) = "?" from rfl]; decide
  | str s => rw [show formatOperand (JSVal.str s) = "?" from rfl]; decide
  | null => exact absurd h (by decide)
  | arr xs => exact absurd h (by simp [scalarTruthy])
  | obj fs => exact absurd h (by simp [scalarTruthy])

theorem countQ_formatOperandList :
    ∀ xs : List JSVal, xs.all scalarTruthy = true →
      countQ (formatOperandList xs) = xs.length
  | [], _ => by decide
  | [x], h => by
    rw [formatOperandList, countQ_formatOperand_scalar x (by simpa using h)]
    rfl
  | x :: y :: rest, h => by
    rw [List.all_cons, Bool.and_eq_true] at h
    have hunf : formatOperandList (x :: y :: rest) =
        formatOperand x ++ ", " ++ formatOperandList (y :: rest) := rfl
    rw [hunf, countQ_append, countQ_append,
      countQ_formatOperand_scalar x h.1,
      show countQ ", " = 0 from by decide,
      countQ_formatOperandList (y :: rest) h.2]
    simp only [List.length_cons]
    omega

theorem countQ_formatOperand_arr (xs : List JSVal) (h : xs.all scalarTruthy = true) :
    countQ (formatOperand (.arr xs)) = xs.length := by
  rw [formatOperand, countQ_append, countQ_append,
    countQ_formatOperandList xs h,
    show countQ "(" = 0 from by decide,
    show countQ ")" = 0 from by decide]
  omega

theorem countQ_formatOperator (o : Option QOp) : countQ (formatOperator o) = 0 := by
  cases o with
  | none => decide
  | some op => cases op <;> decide

theorem jsConcat_length : ∀ l : List JSVal, (jsConcat l).length = (l.map jsLen).sum
  | [] => rfl
  | .arr x :: rest => by simp [jsConcat, jsLen, jsConcat_length rest]
  | .null :: rest => by simp [jsConcat, jsLen, jsConcat_length rest, Nat.add_comm]
  | .bool b :: rest => by simp [jsConcat, jsLen, jsConcat_length rest, Nat.add_comm]
  | .num n :: rest => by simp [jsConcat, jsLen, jsConcat_length rest, Nat.add_comm]
  | .str s :: rest => by simp [jsConcat, jsLen, jsConcat_length rest, Nat.add_comm]
  | .obj fs :: rest => by simp [jsConcat, jsLen, jsConcat_length rest, Nat.add_comm]

/-- No-`?` side conditions on the environment: the collection name, the
mapped SQL column names, every fresh alias, and every index-table name are
free of `?` characters (true of the real inputs: uuids are hex-and-dash,
`_id` is fixed, and table names are caller-controlled). -/
def envNoQuestion (env : QEnv) : Prop :=
  countQ env.name = 0 ∧
  (∀ f s, env.nonJSONFields f = some s → countQ s = 0) ∧
  (∀ n, countQ (env.fresh n) = 0) ∧
  (∀ f t, env.arrayIndexes f = some t → countQ t = 0)

theorem countQ_littoJSON (env : QEnv) (henv : envNoQuestion env) (f : String)
    (hf : countQ f = 0) : countQ (littoJSON env f) = 0 := by
  have hjson : countQ ("json_extract(document, \"$." ++ f ++ "\")") = 0 := by
    rw [countQ_append, countQ_append, hf,
      show countQ "json_extract(document, \"$." = 0 from by decide,
      show countQ "\")" = 0 from by decide]
  cases h : env.nonJSONFields f with
  | none => simpa [littoJSON, h] using hjson
  | some s =>
    by_cases hs : s = ""
    · simpa [littoJSON, h, hs] using hjson
    · simpa [littoJSON, h, hs] using henv.2.1 f s h

/-- A `$in`/`$nin` operand on which placeholders and bound values agree: a
list whose elements are all truthy scalars. -/
def goodInOperand : JSVal → Bool
  | .arr xs => xs.all scalarTruthy
  | _ => false

/-- A comparator-leaf operand on which the single `?` gets exactly one bound
value: anything but `null` (whose value is dropped) and lists. -/
def goodLeafOperand : JSVal → Bool
  | .null => false
  | .arr _ => false
  | _ => true

mutual
/-- Query parts on which the claim's one-parameter-per-placeholder
correspondence can hold: comparator leaves carry a non-null, non-list
operand, `$in`/`$nin` leaves carry a list of truthy scalars, and no field
path contains a `?` character. -/
def goodPart : QueryPart → Bool
  | .mk field op operand parts =>
    match op with
    | some .and => goodParts parts
    | some .or => goodParts parts
    | some .not => goodParts parts
    | some .nin => goodInOperand operand && (countQ (field.getD "") == 0)
    | some .isin => goodInOperand operand && (countQ (field.getD "") == 0)
    | _ => goodLeafOperand operand && (countQ (field.getD "undefined") == 0)

/-- `goodPart` on every element. -/
def goodParts : List QueryPart → Bool
  | [] => true
  | p :: rest => goodPart p && goodParts rest
end

theorem inOrNin_count (env : QEnv) (henv : envNoQuestion env) (field : Option String)
    (op : QOp) (operand : JSVal) (parts : List QueryPart) (up : String) (c c2 : Nat)
    (r : QueryResult) (hup : countQ up = 0)
    (hgo : goodInOperand operand = true) (hgf : countQ (field.getD "") = 0)
    (hok : inOrNin env field op operand parts up c = .ok (r, c2)) :
    countQ (r.join.getD "") = 0 ∧ countQ r.sql = jsLen r.operands := by
  rw [inOrNin] at hok
  by_cases hfe : (field.getD "") = ""
  · rw [if_pos hfe] at hok
    exact absurd hok (by simp)
  rw [if_neg hfe] at hok
  by_cases hpl : parts.length > 0
  · rw [if_pos hpl] at hok
    exact absurd hok (by simp)
  rw [if_neg hpl] at hok
  obtain ⟨xs, rfl⟩ : ∃ xs, operand = .arr xs := by
    cases operand with
    | arr xs => exact ⟨xs, rfl⟩
    | null => exact absurd hgo (by decide)
    | bool b => exact absurd hgo (by simp [goodInOperand])
    | num n => exact absurd hgo (by simp [goodInOperand])
    | str s2 => exact absurd hgo (by simp [goodInOperand])
    | obj fs => exact absurd hgo (by simp [goodInOperand])
  have hxs : xs.all scalarTruthy = true := by simpa [goodInOperand] using hgo
  have hops : jsLen (filterOperand (.arr xs)) = xs.length := by
    rw [filterOperand, filterOperandList_id xs hxs]
    rfl
  have hlit : countQ (littoJSON env (field.getD "")) = 0 :=
    countQ_littoJSON env henv _ hgf
  have hfresh : countQ (env.fresh c) = 0 := henv.2.2.1 c
  have hsql0 : countQ ("\"" ++ env.fresh c ++ "\".value " ++ up ++ " " ++
      formatOperator (some .isin) ++ " " ++ formatOperand (.arr xs)) = xs.length := by
    simp only [countQ_append, hfresh, hup, countQ_formatOperator,
      countQ_formatOperand_arr xs hxs,
      show countQ "\"" = 0 from by decide,
      show countQ "\".value " = 0 from by decide,
      show countQ " " = 0 from by decide]
    try omega
  have hjoin0 : countQ (", json_each(" ++ littoJSON env (field.getD "") ++ ") as \"" ++
      env.fresh c ++ "\"") = 0 := by
    simp only [countQ_append, hlit, hfresh,
      show countQ ", json_each(" = 0 from by decide,
      show countQ ") as \"" = 0 from by decide,
      show countQ "\"" = 0 from by decide]
    try omega
  -- the indexed variant
  have hidx : ∀ t : String, env.arrayIndexes (field.getD "") = some t → t ≠ "" →
      countQ ("INNER JOIN \"" ++ t ++ "\" ON \"" ++ t ++ "\"._id = \"" ++
        env.name ++ "\"._id") = 0 ∧
      countQ ("\"" ++ t ++ "\".value " ++ up ++ " " ++
        formatOperator (some .isin) ++ " " ++ formatOperand (.arr xs)) = xs.length := by
    intro t ht _
    have hct : countQ t = 0 := henv.2.2.2 _ t ht
    constructor
    · simp only [countQ_append, hct, henv.1,
        show countQ "INNER JOIN \"" = 0 from by decide,
        show countQ "\" ON \"" = 0 from by decide,
        show countQ "\"._id = \"" = 0 from by decide,
        show countQ "\"._id" = 0 from by decide]
      try omega
    · simp only [countQ_append, hct, hup, countQ_formatOperator,
        countQ_formatOperand_arr xs hxs,
        show countQ "\"" = 0 from by decide,
        show countQ "\".value " = 0 from by decide,
        show countQ " " = 0 from by decide]
      try omega
  -- name the selected join/sql pair and discharge the two operator outcomes
  simp only [] at hok
  cases hai : env.arrayIndexes (field.getD "") with
  | none =>
    rw [hai] at hok
    simp only [] at hok
    by_cases hof : op = .nin
    · rw [if_pos hof] at hok
      simp only [Except.ok.injEq, Prod.mk.injEq] at hok
      obtain ⟨rfl, rfl⟩ := hok
      refine ⟨by exact (by decide : countQ "" = 0), ?_⟩
      rw [hops]
      simp only [countQ_append, hsql0, hjoin0, henv.1,
        show countQ "\"" = 0 from by decide,
        show countQ "\"._id NOT IN ( SELECT \"" = 0 from by decide,
        show countQ "\"._id FROM \"" = 0 from by decide,
        show countQ "\" " = 0 from by decide,
        show countQ " WHERE " = 0 from by decide,
        show countQ ")" = 0 from by decide]
      try omega
    · rw [if_neg hof] at hok
      simp only [Except.ok.injEq, Prod.mk.injEq] at hok
      obtain ⟨rfl, rfl⟩ := hok
      exact ⟨hjoin0, by rw [hops]; exact hsql0⟩
  | some t =>
    rw [hai] at hok
    simp only [] at hok
    by_cases hte : t = ""
    · rw [if_pos hte] at hok
      simp only [] at hok
      by_cases hof : op = .nin
      · rw [if_pos hof] at hok
        simp only [Except.ok.injEq, Prod.mk.injEq] at hok
        obtain ⟨rfl, rfl⟩ := hok
        refine ⟨by exact (by decide : countQ "" = 0), ?_⟩
        rw [hops]
        simp only [countQ_append, hsql0, hjoin0, henv.1,
          show countQ "\"" = 0 from by decide,
          show countQ "\"._id NOT IN ( SELECT \"" = 0 from by decide,
          show countQ "\"._id FROM \"" = 0 from by decide,
          show countQ "\" " = 0 from by decide,
          show countQ " WHERE " = 0 from by decide,
          show countQ ")" = 0 from by decide]
        try omega
      · rw [if_neg hof] at hok
        simp only [Except.ok.injEq, Prod.mk.injEq] at hok
        obtain ⟨rfl, rfl⟩ := hok
        exact ⟨hjoin0, by rw [hops]; exact hsql0⟩
    · rw [if_neg hte] at hok
      simp only [] at hok
      obtain ⟨hj, hs⟩ := hidx t hai hte
      by_cases hof : op = .nin
      · rw [if_pos hof] at hok
        simp only [Except.ok.injEq, Prod.mk.injEq] at hok
        obtain ⟨rfl, rfl⟩ := hok
        refine ⟨by exact (by decide : countQ "" = 0), ?_⟩
        rw [hops]
        simp only [countQ_append, hs, hj, henv.1,
          show countQ "\"" = 0 from by decide,
          show countQ "\"._id NOT IN ( SELECT \"" = 0 from by decide,
          show countQ "\"._id FROM \"" = 0 from by decide,
          show countQ "\" " = 0 from by decide,
          show countQ " WHERE " = 0 from by decide,
          show countQ ")" = 0 from by decide]
        try omega
      · rw [if_neg hof] at hok
        simp only [Except.ok.injEq, Prod.mk.injEq] at hok
        obtain ⟨rfl, rfl⟩ := hok
        exact ⟨hj, by rw [hops]; exact hs⟩

theorem jsLen_filterOperand_leaf (operand : JSVal)
    (h : goodLeafOperand operand = true) :
    jsLen (filterOperand operand) = 1 := by
  cases operand with
  | null => exact absurd h (by decide)
  | arr xs => exact absurd h (by simp [goodLeafOperand])
  | bool b => rfl
  | num n => rfl
  | str s => rfl
  | obj fs => rfl

theorem leafPayload_count (env : QEnv) (henv : envNoQuestion env)
    (field : Option String) (o2 : Option QOp) (up : String)
    (hup : countQ up = 0) (hgf : countQ (field.getD "undefined") = 0) :
    countQ ("(" ++ littoJSON env (field.getD "undefined") ++ " " ++ up ++ " " ++
      formatOperator o2 ++ " ?)") = 1 := by
  simp only [countQ_append, hup, countQ_formatOperator,
    countQ_littoJSON env henv _ hgf,
    show countQ "(" = 0 from by decide,
    show countQ " " = 0 from by decide,
    show countQ " ?)" = 1 from by decide]

theorem logicalPayload_count (rs : List QueryResult) (sep : String)
    (hsep : countQ sep = 0)
    (hall : ∀ r ∈ rs, countQ (r.join.getD "") = 0 ∧ countQ r.sql = jsLen r.operands) :
    countQ (joinSep sep (rs.map QueryResult.sql)) =
      jsLen (.arr (jsConcat (rs.map QueryResult.operands))) := by
  rw [countQ_joinSep sep hsep,
    show jsLen (.arr (jsConcat (rs.map QueryResult.operands))) =
      (jsConcat (rs.map QueryResult.operands)).length from rfl,
    jsConcat_length, List.map_map, List.map_map]
  exact congrArg List.sum (List.map_congr_left (fun r hr => (hall r hr).2))

mutual
theorem partToString_count (env : QEnv) (henv : envNoQuestion env) :
    ∀ (p : QueryPart) (up : String) (c c2 : Nat) (r : QueryResult),
      countQ up = 0 → goodPart p = true →
      partToString env p up c = .ok (r, c2) →
      countQ (r.join.getD "") = 0 ∧ countQ r.sql = jsLen r.operands
  | .mk field (some .and) operand parts, up, c, c2, r, hup, hg, hok => by
    rw [partToString] at hok
    cases hps : partsToString env parts "" c with
    | error e =>
      rw [hps] at hok
      exact absurd hok (by simp [bind, Except.bind])
    | ok val =>
      obtain ⟨rs, c1⟩ := val
      rw [hps] at hok
      simp only [bind, Except.bind, pure, Except.ok.injEq, Prod.mk.injEq] at hok
      obtain ⟨rfl, rfl⟩ := hok
      have hall := partsToString_count env henv parts "" c _ rs
        (by decide) hg hps
      exact ⟨by exact (by decide : countQ "" = 0),
        logicalPayload_count rs " AND " (by decide) hall⟩
  | .mk field (some .or) operand parts, up, c, c2, r, hup, hg, hok => by
    rw [partToString] at hok
    cases hps : partsToString env parts "" c with
    | error e =>
      rw [hps] at hok
      exact absurd hok (by simp [bind, Except.bind])
    | ok val =>
      obtain ⟨rs, c1⟩ := val
      rw [hps] at hok
      simp only [bind, Except.bind, pure, Except.ok.injEq, Prod.mk.injEq] at hok
      obtain ⟨rfl, rfl⟩ := hok
      have hall := partsToString_count env henv parts "" c _ rs
        (by decide) hg hps
      exact ⟨by exact (by decide : countQ "" = 0),
        logicalPayload_count rs " OR " (by decide) hall⟩
  | .mk field (some .not) operand parts, up, c, c2, r, hup, hg, hok => by
    rw [partToString] at hok
    cases hps : partsToString env parts (formatOperator (some .not)) c with
    | error e =>
      rw [hps] at hok
      exact absurd hok (by simp [bind, Except.bind])
    | ok val =>
      obtain ⟨rs, c1⟩ := val
      rw [hps] at hok
      simp only [bind, Except.bind, pure, Except.ok.injEq, Prod.mk.injEq] at hok
      obtain ⟨rfl, rfl⟩ := hok
      have hall := partsToString_count env henv parts (formatOperator (some .not)) c _ rs
        (by decide) hg hps
      exact ⟨by exact (by decide : countQ "" = 0),
        logicalPayload_count rs " AND " (by decide) hall⟩
  | .mk field (some .nin) operand parts, up, c, c2, r, hup, hg, hok => by
    rw [partToString] at hok
    have hg2 : (goodInOperand operand && (countQ (field.getD "") == 0)) = true := hg
    rw [Bool.and_eq_true] at hg2
    exact inOrNin_count env henv field .nin operand parts up c c2 r hup hg2.1
      (by simpa using hg2.2) hok
  | .mk field (some .isin) operand parts, up, c, c2, r, hup, hg, hok => by
    rw [partToString] at hok
    have hg2 : (goodInOperand operand && (countQ (field.getD "") == 0)) = true := hg
    rw [Bool.and_eq_true] at hg2
    exact inOrNin_count env henv field .isin operand parts up c c2 r hup hg2.1
      (by simpa using hg2.2) hok
  | .mk field (some .eq) operand parts, up, c, c2, r, hup, hg, hok => by
    rw [partToString] at hok
    by_cases hp : parts.length > 0
    · rw [if_pos hp] at hok
      exact absurd hok (by simp)
    rw [if_neg hp] at hok
    simp only [Except.ok.injEq, Prod.mk.injEq] at hok
    obtain ⟨rfl, rfl⟩ := hok
    have hg2 : (goodLeafOperand operand && (countQ (field.getD "undefined") == 0)) = true := hg
    rw [Bool.and_eq_true] at hg2
    refine ⟨by exact (by decide : countQ "" = 0), ?_⟩
    rw [jsLen_filterOperand_leaf operand hg2.1]
    exact leafPayload_count env henv field _ up hup (by simpa using hg2.2)
    all_goals decide
  | .mk field (some .ne) operand parts, up, c, c2, r, hup, hg, hok => by
    rw [partToString] at hok
    by_cases hp : parts.length > 0
    · rw [if_pos hp] at hok
      exact absurd hok (by simp)
    rw [if_neg hp] at hok
    simp only [Except.ok.injEq, Prod.mk.injEq] at hok
    obtain ⟨rfl, rfl⟩ := hok
    have hg2 : (goodLeafOperand operand && (countQ (field.getD "undefined") == 0)) = true := hg
    rw [Bool.and_eq_true] at hg2
    refine ⟨by exact (by decide : countQ "" = 0), ?_⟩
    rw [jsLen_filterOperand_leaf operand hg2.1]
    exact leafPayload_count env henv field _ up hup (by simpa using hg2.2)
    all_goals decide
  | .mk field (some .gt) operand parts, up, c, c2, r, hup, hg, hok => by
    rw [partToString] at hok
    by_cases hp : parts.length > 0
    · rw [if_pos hp] at hok
      exact absurd hok (by simp)
    rw [if_neg hp] at hok
    simp only [Except.ok.injEq, Prod.mk.injEq] at hok
    obtain ⟨rfl, rfl⟩ := hok
    have hg2 : (goodLeafOperand operand && (countQ (field.getD "undefined") == 0)) = true := hg
    rw [Bool.and_eq_true] at hg2
    refine ⟨by exact (by decide : countQ "" = 0), ?_⟩
    rw [jsLen_filterOperand_leaf operand hg2.1]
    exact leafPayload_count env henv field _ up hup (by simpa using hg2.2)
    all_goals decide
  | .mk field (some .gte) operand parts, up, c, c2, r, hup, hg, hok => by
    rw [partToString] at hok
    by_cases hp : parts.length > 0
    · rw [if_pos hp] at hok
      exact absurd hok (by simp)
    rw [if_neg hp] at hok
    simp only [Except.ok.injEq, Prod.mk.injEq] at hok
    obtain ⟨rfl, rfl⟩ := hok
    have hg2 : (goodLeafOperand operand && (countQ (field.getD "undefined") == 0)) = true := hg
    rw [Bool.and_eq_true] at hg2
    refine ⟨by exact (by decide : countQ "" = 0), ?_⟩
    rw [jsLen_filterOperand_leaf operand hg2.1]
    exact leafPayload_count env henv field _ up hup (by simpa using hg2.2)
    all_goals decide
  | .mk field (some .lt) operand parts, up, c, c2, r, hup, hg, hok => by
    rw [partToString] at hok
    by_cases hp : parts.length > 0
    · rw [if_pos hp] at hok
      exact absurd hok (by simp)
    rw [if_neg hp] at hok
    simp only [Except.ok.injEq, Prod.mk.injEq] at hok
    obtain ⟨rfl, rfl⟩ := hok
    have hg2 : (goodLeafOperand operand && (countQ (field.getD "undefined") == 0)) = true := hg
    rw [Bool.and_eq_true] at hg2
    refine ⟨by exact (by decide : countQ "" = 0), ?_⟩
    rw [jsLen_filterOperand_leaf operand hg2.1]
    exact leafPayload_count env henv field _ up hup (by simpa using hg2.2)
    all_goals decide
  | .mk field (some .lte) operand parts, up, c, c2, r, hup, hg, hok => by
    rw [partToString] at hok
    by_cases hp : parts.length > 0
    · rw [if_pos hp] at hok
      exact absurd hok (by simp)
    rw [if_neg hp] at hok
    simp only [Except.ok.injEq, Prod.mk.injEq] at hok
    obtain ⟨rfl, rfl⟩ := hok
    have hg2 : (goodLeafOperand operand && (countQ (field.getD "undefined") == 0)) = true := hg
    rw [Bool.and_eq_true] at hg2
    refine ⟨by exact (by decide : countQ "" = 0), ?_⟩
    rw [jsLen_filterOperand_leaf operand hg2.1]
    exact leafPayload_count env henv field _ up hup (by simpa using hg2.2)
    all_goals decide
  | .mk field (some .like) operand parts, up, c, c2, r, hup, hg, hok => by
    rw [partToString] at hok
    by_cases hp : parts.length > 0
    · rw [if_pos hp] at hok
      exact absurd hok (by simp)
    rw [if_neg hp] at hok
    simp only [Except.ok.injEq, Prod.mk.injEq] at hok
    obtain ⟨rfl, rfl⟩ := hok
    have hg2 : (goodLeafOperand operand && (countQ (field.getD "undefined") == 0)) = true := hg
    rw [Bool.and_eq_true] at hg2
    refine ⟨by exact (by decide : countQ "" = 0), ?_⟩
    rw [jsLen_filterOperand_leaf operand hg2.1]
    exact leafPayload_count env henv field _ up hup (by simpa using hg2.2)
    all_goals decide
  | .mk field none operand parts, up, c, c2, r, hup, hg, hok => by
    rw [partToString] at hok
    by_cases hp : parts.length > 0
    · rw [if_pos hp] at hok
      exact absurd hok (by simp)
    rw [if_neg hp] at hok
    simp only [Except.ok.injEq, Prod.mk.injEq] at hok
    obtain ⟨rfl, rfl⟩ := hok
    have hg2 : (goodLeafOperand operand && (countQ (field.getD "undefined") == 0)) = true := hg
    rw [Bool.and_eq_true] at hg2
    refine ⟨by exact (by decide : countQ "" = 0), ?_⟩
    rw [jsLen_filterOperand_leaf operand hg2.1]
    exact leafPayload_count env henv field _ up hup (by simpa using hg2.2)
    all_goals decide

theorem partsToString_count (env : QEnv) (henv : envNoQuestion env) :
    ∀ (l : List QueryPart) (up : String) (c c2 : Nat) (rs : List QueryResult),
      countQ up = 0 → goodParts l = true →
      partsToString env l up c = .ok (rs, c2) →
      ∀ r ∈ rs, countQ (r.join.getD "") = 0 ∧ countQ r.sql = jsLen r.operands
  | [], up, c, c2, rs, hup, hg, hok => by
    rw [partsToString] at hok
    simp only [Except.ok.injEq, Prod.mk.injEq] at hok
    obtain ⟨rfl, rfl⟩ := hok
    intro r hr
    exact absurd hr (List.not_mem_nil r)
  | p :: rest, up, c, c2, rs, hup, hg, hok => by
    rw [partsToString] at hok
    rw [goodParts, Bool.and_eq_true] at hg
    cases hp1 : partToString env p up c with
    | error e =>
      rw [hp1] at hok
      exact absurd hok (by simp [bind, Except.bind])
    | ok val =>
      obtain ⟨r1, c1⟩ := val
      rw [hp1] at hok
      simp only [bind, Except.bind] at hok
      cases hp2 : partsToString env rest up c1 with
      | error e =>
        rw [hp2] at hok
        exact absurd hok (by simp [bind, Except.bind])
      | ok val2 =>
        obtain ⟨rs1, c3⟩ := val2
        rw [hp2] at hok
        simp only [bind, Except.bind, pure, Except.ok.injEq, Prod.mk.injEq] at hok
        obtain ⟨rfl, rfl⟩ := hok
        intro r hr
        rcases List.mem_cons.mp hr with rfl | hr2
        · exact partToString_count env henv p up c c1 r hup hg.1 hp1
        · exact partsToString_count env henv rest up c1 _ rs1 hup hg.2 hp2 r hr2
end

/-- Claim C1 counterexample: `{k: {$in: [0]}}` — a list operand whose single
element is the falsy scalar `0` — compiles to a statement with one `?`
placeholder while `values` is empty: `filterOperand` drops falsy list
elements (`0`, `false`, `""`), so the claim's one-parameter-per-placeholder
alignment fails. -/
theorem in_list_falsy_scalar_drops_parameter :
    queryResults ⟨"people", fun _ => none, fun _ => none, fun _ => "u"⟩
        [.mk (some "k") (some .isin) (.arr [.num 0]) []] 0 =
      .ok ([⟨"\"u\".value  IN (?)", .arr [],
             some ", json_each(json_extract(document, \"$.k\")) as \"u\""⟩], 1) ∧
    countQ
        (queryJoin [⟨"\"u\".value  IN (?)", .arr [],
           some ", json_each(json_extract(document, \"$.k\")) as \"u\""⟩] ++ " " ++
         querySql [⟨"\"u\".value  IN (?)", .arr [],
           some ", json_each(json_extract(document, \"$.k\")) as \"u\""⟩]) = 1 ∧
    (queryValues [⟨"\"u\".value  IN (?)", .arr [],
        some ", json_each(json_extract(document, \"$.k\")) as \"u\""⟩]).length = 0 := by
  refine ⟨rfl, by decide, rfl⟩

/-- Claim C1 (amended): for every accepted query AST in which each
comparator leaf carries a non-null, non-list operand and each `$in`/`$nin`
operand is a list of truthy scalars (and no field path, column name, alias
or table name contains a `?`), the assembled statement — `join` then `sql` —
carries exactly one `?` placeholder per entry of `values`; moreover for
every prefix of the part list the placeholders emitted so far equal the
values bound so far, which is the left-to-right positional alignment.
Without those operand restrictions the correspondence fails: `null`
operands and falsy list scalars emit placeholders or drop values
asymmetrically. -/
theorem query_placeholders_match_values (env : QEnv) (henv : envNoQuestion env)
    (parts : List QueryPart) (c c2 : Nat) (rs : List QueryResult)
    (hg : goodParts parts = true)
    (hok : queryResults env parts c = .ok (rs, c2)) :
    countQ (queryJoin rs ++ " " ++ querySql rs) = (queryValues rs).length ∧
    ∀ i : Nat, countQ (joinSep " AND " ((rs.take i).map QueryResult.sql)) =
      (queryValues (rs.take i)).length := by
  have hall := partsToString_count env henv parts "" c c2 rs (by decide) hg hok
  have htake : ∀ i : Nat,
      countQ (joinSep " AND " ((rs.take i).map QueryResult.sql)) =
        (queryValues (rs.take i)).length := by
    intro i
    rw [queryValues, jsConcat_length,
      countQ_joinSep " AND " (by decide), List.map_map, List.map_map]
    exact congrArg List.sum (List.map_congr_left
      (fun r hr => (hall r (List.take_subset i rs hr)).2))
  have hjoin : countQ (queryJoin rs) = 0 := by
    rw [queryJoin]
    have hz : ∀ j ∈ (rs.filterMap QueryResult.join).filter (fun s => s ≠ ""),
        countQ j = 0 := by
      intro j hj
      obtain ⟨r, hr, hrj⟩ := List.mem_filterMap.mp (List.mem_of_mem_filter hj)
      have := (hall r hr).1
      rw [hrj] at this
      exact this
    by_cases hl :
        ((rs.filterMap QueryResult.join).filter (fun s => s ≠ "")).length > 0
    · rw [if_pos hl, countQ_joinSep " " (by decide)]
      apply List.sum_eq_zero
      intro x hx
      obtain ⟨j, hj, rfl⟩ := List.mem_map.mp hx
      exact hz j hj
    · rw [if_neg hl]
      decide
  refine ⟨?_, htake⟩
  have hmain := htake rs.length
  rw [List.take_length] at hmain
  rw [countQ_append, countQ_append, hjoin, querySql, hmain,
    show countQ " " = 0 from by decide]
  omega

theorem query_placeholders_match_values_witness :
    countQ
        (queryJoin [⟨"(json_extract(document, \"$.firstname\")  IS ?)",
            JSVal.str "Lisa", none⟩,
          ⟨"\"u\".value  IN (?, ?)", .arr [JSVal.str "a", JSVal.str "b"],
            some ", json_each(json_extract(document, \"$.hobbies\")) as \"u\""⟩] ++
          " " ++
         querySql [⟨"(json_extract(document, \"$.firstname\")  IS ?)",
            JSVal.str "Lisa", none⟩,
          ⟨"\"u\".value  IN (?, ?)", .arr [JSVal.str "a", JSVal.str "b"],
            some ", json_each(json_extract(document, \"$.hobbies\")) as \"u\""⟩]) =
      (queryValues [⟨"(json_extract(document, \"$.firstname\")  IS ?)",
          JSVal.str "Lisa", none⟩,
        ⟨"\"u\".value  IN (?, ?)", .arr [JSVal.str "a", JSVal.str "b"],
          some ", json_each(json_extract(document, \"$.hobbies\")) as \"u\""⟩]).length := by
  have henv1 : envNoQuestion ⟨"people", fun _ => none, fun _ => none, fun _ => "u"⟩ := by
    refine ⟨by decide, ?_, ?_, ?_⟩
    · intro f s hs
      cases hs
    · intro n
      show countQ "u" = 0
      decide
    · intro f t ht
      cases ht
  have h := query_placeholders_match_values
    ⟨"people", fun _ => none, fun _ => none, fun _ => "u"⟩
    henv1
    [.mk (some "firstname") none (.str "Lisa") [],
     .mk (some "hobbies") (some .isin) (.arr [.str "a", .str "b"]) []]
    0 1
    [⟨"(json_extract(document, \"$.firstname\")  IS ?)", JSVal.str "Lisa", none⟩,
     ⟨"\"u\".value  IN (?, ?)", .arr [JSVal.str "a", JSVal.str "b"],
       some ", json_each(json_extract(document, \"$.hobbies\")) as \"u\""⟩]
    (by decide) rfl
  exact h.1

/- ### Claim C8 : determinism of query compilation -/

/-- Whether an `$in`/`$nin` predicate on this field falls back to the
`json_each` expansion with a fresh `uuid.v4()` alias (no usable array
index). -/
def aliasNeeded (env : QEnv) (field : Option String) : Bool :=
  match env.arrayIndexes (field.getD "") with
  | some t => t == ""
  | none => true

mutual
/-- Whether compiling this part consults the fresh-identifier supply in a
way that reaches the output: an `$in`/`$nin` on an unindexed path. -/
def partUsesAlias (env : QEnv) : QueryPart → Bool
  | .mk field op _ parts =>
    match op with
    | some .and => partsUseAlias env parts
    | some .or => partsUseAlias env parts
    | some .not => partsUseAlias env parts
    | some .nin => aliasNeeded env field
    | some .isin => aliasNeeded env field
    | _ => false

/-- Any-part version of `partUsesAlias`. -/
def partsUseAlias (env : QEnv) : List QueryPart → Bool
  | [] => false
  | p :: rest => partUsesAlias env p || partsUseAlias env rest
end

theorem littoJSON_congr (env env2 : QEnv)
    (hf : env.nonJSONFields = env2.nonJSONFields) (f : String) :
    littoJSON env f = littoJSON env2 f := by
  rw [littoJSON, littoJSON, hf]

theorem inOrNin_det (env env2 : QEnv)
    (hn : env.name = env2.name) (ha : env.arrayIndexes = env2.arrayIndexes)
    (hf : env.nonJSONFields = env2.nonJSONFields)
    (field : Option String) (op : QOp) (operand : JSVal) (parts : List QueryPart)
    (up : String) (c c2 d d2 : Nat) (r r2 : QueryResult)
    (h1 : inOrNin env field op operand parts up c = .ok (r, c2))
    (h2 : inOrNin env2 field op operand parts up d = .ok (r2, d2)) :
    r.operands = r2.operands ∧ (aliasNeeded env field = false → r = r2) := by
  rw [inOrNin] at h1 h2
  by_cases hfe : (field.getD "") = ""
  · rw [if_pos hfe] at h1
    exact absurd h1 (by simp)
  rw [if_neg hfe] at h1 h2
  by_cases hpl : parts.length > 0
  · rw [if_pos hpl] at h1
    exact absurd h1 (by simp)
  rw [if_neg hpl] at h1 h2
  simp only [] at h1 h2
  have hlit := littoJSON_congr env env2 hf (field.getD "")
  rw [aliasNeeded]
  cases hai : env.arrayIndexes (field.getD "") with
  | none =>
    rw [hai] at h1
    rw [← ha, hai] at h2
    simp only [] at h1 h2
    by_cases hof : op = .nin
    · rw [if_pos hof] at h1 h2
      simp only [Except.ok.injEq, Prod.mk.injEq] at h1 h2
      obtain ⟨rfl, rfl⟩ := h1
      obtain ⟨rfl, rfl⟩ := h2
      exact ⟨rfl, by intro hcontra; cases hcontra⟩
    · rw [if_neg hof] at h1 h2
      simp only [Except.ok.injEq, Prod.mk.injEq] at h1 h2
      obtain ⟨rfl, rfl⟩ := h1
      obtain ⟨rfl, rfl⟩ := h2
      exact ⟨rfl, by intro hcontra; cases hcontra⟩
  | some t =>
    rw [hai] at h1
    rw [← ha, hai] at h2
    simp only [] at h1 h2
    by_cases hte : t = ""
    · rw [if_pos hte] at h1 h2
      simp only [] at h1 h2
      by_cases hof : op = .nin
      · rw [if_pos hof] at h1 h2
        simp only [Except.ok.injEq, Prod.mk.injEq] at h1 h2
        obtain ⟨rfl, rfl⟩ := h1
        obtain ⟨rfl, rfl⟩ := h2
        refine ⟨rfl, ?_⟩
        intro hcontra
        rw [hte] at hcontra
        cases hcontra
      · rw [if_neg hof] at h1 h2
        simp only [Except.ok.injEq, Prod.mk.injEq] at h1 h2
        obtain ⟨rfl, rfl⟩ := h1
        obtain ⟨rfl, rfl⟩ := h2
        refine ⟨rfl, ?_⟩
        intro hcontra
        rw [hte] at hcontra
        cases hcontra
    · rw [if_neg hte] at h1 h2
      simp only [] at h1 h2
      by_cases hof : op = .nin
      · rw [if_pos hof] at h1 h2
        simp only [Except.ok.injEq, Prod.mk.injEq] at h1 h2
        obtain ⟨rfl, rfl⟩ := h1
        obtain ⟨rfl, rfl⟩ := h2
        refine ⟨rfl, ?_⟩
        intro _
        rw [hn]
      · rw [if_neg hof] at h1 h2
        simp only [Except.ok.injEq, Prod.mk.injEq] at h1 h2
        obtain ⟨rfl, rfl⟩ := h1
        obtain ⟨rfl, rfl⟩ := h2
        refine ⟨rfl, ?_⟩
        intro _
        rw [hn]

mutual
theorem partToString_det (env env2 : QEnv)
    (hn : env.name = env2.name) (ha : env.arrayIndexes = env2.arrayIndexes)
    (hf : env.nonJSONFields = env2.nonJSONFields) :
    ∀ (p : QueryPart) (up : String) (c c2 d d2 : Nat) (r r2 : QueryResult),
      partToString env p up c = .ok (r, c2) →
      partToString env2 p up d = .ok (r2, d2) →
      r.operands = r2.operands ∧ (partUsesAlias env p = false → r = r2)
  | .mk field (some .and) operand parts, up, c, c2, d, d2, r, r2, h1, h2 => by
    rw [partToString] at h1 h2
    cases hps1 : partsToString env parts "" c with
    | error e =>
      rw [hps1] at h1
      exact absurd h1 (by simp [bind, Except.bind])
    | ok val1 =>
      obtain ⟨rs1, e1⟩ := val1
      rw [hps1] at h1
      cases hps2 : partsToString env2 parts "" d with
      | error e =>
        rw [hps2] at h2
        exact absurd h2 (by simp [bind, Except.bind])
      | ok val2 =>
        obtain ⟨rs2, e2⟩ := val2
        rw [hps2] at h2
        simp only [bind, Except.bind, pure, Except.ok.injEq, Prod.mk.injEq] at h1 h2
        obtain ⟨rfl, rfl⟩ := h1
        obtain ⟨rfl, rfl⟩ := h2
        have hd := partsToString_det env env2 hn ha hf parts "" c _ d _ rs1 rs2 hps1 hps2
        constructor
        · simp only []
          rw [hd.1]
        · intro hna
          have hrs : rs1 = rs2 := hd.2 hna
          rw [hrs]
  | .mk field (some .or) operand parts, up, c, c2, d, d2, r, r2, h1, h2 => by
    rw [partToString] at h1 h2
    cases hps1 : partsToString env parts "" c with
    | error e =>
      rw [hps1] at h1
      exact absurd h1 (by simp [bind, Except.bind])
    | ok val1 =>
      obtain ⟨rs1, e1⟩ := val1
      rw [hps1] at h1
      cases hps2 : partsToString env2 parts "" d with
      | error e =>
        rw [hps2] at h2
        exact absurd h2 (by simp [bind, Except.bind])
      | ok val2 =>
        obtain ⟨rs2, e2⟩ := val2
        rw [hps2] at h2
        simp only [bind, Except.bind, pure, Except.ok.injEq, Prod.mk.injEq] at h1 h2
        obtain ⟨rfl, rfl⟩ := h1
        obtain ⟨rfl, rfl⟩ := h2
        have hd := partsToString_det env env2 hn ha hf parts "" c _ d _ rs1 rs2 hps1 hps2
        constructor
        · simp only []
          rw [hd.1]
        · intro hna
          have hrs : rs1 = rs2 := hd.2 hna
          rw [hrs]
  | .mk field (some .not) operand parts, up, c, c2, d, d2, r, r2, h1, h2 => by
    rw [partToString] at h1 h2
    cases hps1 : partsToString env parts (formatOperator (some .not)) c with
    | error e =>
      rw [hps1] at h1
      exact absurd h1 (by simp [bind, Except.bind])
    | ok val1 =>
      obtain ⟨rs1, e1⟩ := val1
      rw [hps1] at h1
      cases hps2 : partsToString env2 parts (formatOperator (some .not)) d with
      | error e =>
        rw [hps2] at h2
        exact absurd h2 (by simp [bind, Except.bind])
      | ok val2 =>
        obtain ⟨rs2, e2⟩ := val2
        rw [hps2] at h2
        simp only [bind, Except.bind, pure, Except.ok.injEq, Prod.mk.injEq] at h1 h2
        obtain ⟨rfl, rfl⟩ := h1
        obtain ⟨rfl, rfl⟩ := h2
        have hd := partsToString_det env env2 hn ha hf parts (formatOperator (some .not))
          c _ d _ rs1 rs2 hps1 hps2
        constructor
        · simp only []
          rw [hd.1]
        · intro hna
          have hrs : rs1 = rs2 := hd.2 hna
          rw [hrs]
  | .mk field (some .nin) operand parts, up, c, c2, d, d2, r, r2, h1, h2 => by
    rw [partToString] at h1 h2
    exact inOrNin_det env env2 hn ha hf field .nin operand parts up c c2 d d2 r r2 h1 h2
  | .mk field (some .isin) operand parts, up, c, c2, d, d2, r, r2, h1, h2 => by
    rw [partToString] at h1 h2
    exact inOrNin_det env env2 hn ha hf field .isin operand parts up c c2 d d2 r r2 h1 h2
  | .mk field (some .eq) operand parts, up, c, c2, d, d2, r, r2, h1, h2 => by
    rw [partToString] at h1 h2
    by_cases hp : parts.length > 0
    · rw [if_pos hp] at h1
      exact absurd h1 (by simp)
    rw [if_neg hp] at h1 h2
    simp only [Except.ok.injEq, Prod.mk.injEq] at h1 h2
    obtain ⟨rfl, rfl⟩ := h1
    obtain ⟨rfl, rfl⟩ := h2
    rw [littoJSON_congr env env2 hf]
    exact ⟨rfl, fun _ => rfl⟩
    all_goals decide
  | .mk field (some .ne) operand parts, up, c, c2, d, d2, r, r2, h1, h2 => by
    rw [partToString] at h1 h2
    by_cases hp : parts.length > 0
    · rw [if_pos hp] at h1
      exact absurd h1 (by simp)
    rw [if_neg hp] at h1 h2
    simp only [Except.ok.injEq, Prod.mk.injEq] at h1 h2
    obtain ⟨rfl, rfl⟩ := h1
    obtain ⟨rfl, rfl⟩ := h2
    rw [littoJSON_congr env env2 hf]
    exact ⟨rfl, fun _ => rfl⟩
    all_goals decide
  | .mk field (some .gt) operand parts, up, c, c2, d, d2, r, r2, h1, h2 => by
    rw [partToString] at h1 h2
    by_cases hp : parts.length > 0
    · rw [if_pos hp] at h1
      exact absurd h1 (by simp)
    rw [if_neg hp] at h1 h2
    simp only [Except.ok.injEq, Prod.mk.injEq] at h1 h2
    obtain ⟨rfl, rfl⟩ := h1
    obtain ⟨rfl, rfl⟩ := h2
    rw [littoJSON_congr env env2 hf]
    exact ⟨rfl, fun _ => rfl⟩
    all_goals decide
  | .mk field (some .gte) operand parts, up, c, c2, d, d2, r, r2, h1, h2 => by
    rw [partToString] at h1 h2
    by_cases hp : parts.length > 0
    · rw [if_pos hp] at h1
      exact absurd h1 (by simp)
    rw [if_neg hp] at h1 h2
    simp only [Except.ok.injEq, Prod.mk.injEq] at h1 h2
    obtain ⟨rfl, rfl⟩ := h1
    obtain ⟨rfl, rfl⟩ := h2
    rw [littoJSON_congr env env2 hf]
    exact ⟨rfl, fun _ => rfl⟩
    all_goals decide
  | .mk field (some .lt) operand parts, up, c, c2, d, d2, r, r2, h1, h2 => by
    rw [partToString] at h1 h2
    by_cases hp : parts.length > 0
    · rw [if_pos hp] at h1
      exact absurd h1 (by simp)
    rw [if_neg hp] at h1 h2
    simp only [Except.ok.injEq, Prod.mk.injEq] at h1 h2
    obtain ⟨rfl, rfl⟩ := h1
    obtain ⟨rfl, rfl⟩ := h2
    rw [littoJSON_congr env env2 hf]
    exact ⟨rfl, fun _ => rfl⟩
    all_goals decide
  | .mk field (some .lte) operand parts, up, c, c2, d, d2, r, r2, h1, h2 => by
    rw [partToString] at h1 h2
    by_cases hp : parts.length > 0
    · rw [if_pos hp] at h1
      exact absurd h1 (by simp)
    rw [if_neg hp] at h1 h2
    simp only [Except.ok.injEq, Prod.mk.injEq] at h1 h2
    obtain ⟨rfl, rfl⟩ := h1
    obtain ⟨rfl, rfl⟩ := h2
    rw [littoJSON_congr env env2 hf]
    exact ⟨rfl, fun _ => rfl⟩
    all_goals decide
  | .mk field (some .like) operand parts, up, c, c2, d, d2, r, r2, h1, h2 => by
    rw [partToString] at h1 h2
    by_cases hp : parts.length > 0
    · rw [if_pos hp] at h1
      exact absurd h1 (by simp)
    rw [if_neg hp] at h1 h2
    simp only [Except.ok.injEq, Prod.mk.injEq] at h1 h2
    obtain ⟨rfl, rfl⟩ := h1
    obtain ⟨rfl, rfl⟩ := h2
    rw [littoJSON_congr env env2 hf]
    exact ⟨rfl, fun _ => rfl⟩
    all_goals decide
  | .mk field none operand parts, up, c, c2, d, d2, r, r2, h1, h2 => by
    rw [partToString] at h1 h2
    by_cases hp : parts.length > 0
    · rw [if_pos hp] at h1
      exact absurd h1 (by simp)
    rw [if_neg hp] at h1 h2
    simp only [Except.ok.injEq, Prod.mk.injEq] at h1 h2
    obtain ⟨rfl, rfl⟩ := h1
    obtain ⟨rfl, rfl⟩ := h2
    rw [littoJSON_congr env env2 hf]
    exact ⟨rfl, fun _ => rfl⟩
    all_goals decide

theorem partsToString_det (env env2 : QEnv)
    (hn : env.name = env2.name) (ha : env.arrayIndexes = env2.arrayIndexes)
    (hf : env.nonJSONFields = env2.nonJSONFields) :
    ∀ (l : List QueryPart) (up : String) (c c2 d d2 : Nat)
      (rs rs2 : List QueryResult),
      partsToString env l up c = .ok (rs, c2) →
      partsToString env2 l up d = .ok (rs2, d2) →
      rs.map QueryResult.operands = rs2.map QueryResult.operands ∧
        (partsUseAlias env l = false → rs = rs2)
  | [], up, c, c2, d, d2, rs, rs2, h1, h2 => by
    rw [partsToString] at h1 h2
    simp only [Except.ok.injEq, Prod.mk.injEq] at h1 h2
    obtain ⟨rfl, rfl⟩ := h1
    obtain ⟨rfl, rfl⟩ := h2
    exact ⟨rfl, fun _ => rfl⟩
  | p :: rest, up, c, c2, d, d2, rs, rs2, h1, h2 => by
    rw [partsToString] at h1 h2
    cases hp1 : partToString env p up c with
    | error e =>
      rw [hp1] at h1
      exact absurd h1 (by simp [bind, Except.bind])
    | ok val1 =>
      obtain ⟨r1, e1⟩ := val1
      rw [hp1] at h1
      simp only [bind, Except.bind] at h1
      cases hq1 : partsToString env rest up e1 with
      | error e =>
        rw [hq1] at h1
        exact absurd h1 (by simp [bind, Except.bind])
      | ok valr1 =>
        obtain ⟨rs1, f1⟩ := valr1
        rw [hq1] at h1
        simp only [bind, Except.bind, pure, Except.ok.injEq, Prod.mk.injEq] at h1
        obtain ⟨rfl, rfl⟩ := h1
        cases hp2 : partToString env2 p up d with
        | error e =>
          rw [hp2] at h2
          exact absurd h2 (by simp [bind, Except.bind])
        | ok val2 =>
          obtain ⟨r2, e2⟩ := val2
          rw [hp2] at h2
          simp only [bind, Except.bind] at h2
          cases hq2 : partsToString env2 rest up e2 with
          | error e =>
            rw [hq2] at h2
            exact absurd h2 (by simp [bind, Except.bind])
          | ok valr2 =>
            obtain ⟨rs3, f2⟩ := valr2
            rw [hq2] at h2
            simp only [bind, Except.bind, pure, Except.ok.injEq, Prod.mk.injEq] at h2
            obtain ⟨rfl, rfl⟩ := h2
            have hhd := partToString_det env env2 hn ha hf p up c _ d _ r1 r2 hp1 hp2
            have htl := partsToString_det env env2 hn ha hf rest up e1 _ e2 _ rs1 rs3
              hq1 hq2
            constructor
            · rw [List.map_cons, List.map_cons, hhd.1, htl.1]
            · intro hna
              rw [partsUseAlias, Bool.or_eq_false_iff] at hna
              rw [hhd.2 hna.1, htl.2 hna.2]
end

/-- Claim C8 counterexample: two constructions of the same `$in` query on an
unindexed array path, in one process whose `uuid.v4()` stream yields
`u0, u1, ...`, produce different `join` and different `sql` (the expansion
alias differs), while `values` coincide — so construction is not
output-identical across runs as claimed. -/
theorem in_alias_differs_across_constructions :
    queryResults ⟨"people", fun _ => none, fun _ => none, fun n => "u" ++ toString n⟩
        [.mk (some "hobbies") (some .isin) (.arr [.str "x"]) []] 0 =
      .ok ([⟨"\"u0\".value  IN (?)", .arr [JSVal.str "x"],
             some ", json_each(json_extract(document, \"$.hobbies\")) as \"u0\""⟩], 1) ∧
    queryResults ⟨"people", fun _ => none, fun _ => none, fun n => "u" ++ toString n⟩
        [.mk (some "hobbies") (some .isin) (.arr [.str "x"]) []] 1 =
      .ok ([⟨"\"u1\".value  IN (?)", .arr [JSVal.str "x"],
             some ", json_each(json_extract(document, \"$.hobbies\")) as \"u1\""⟩], 2) ∧
    querySql [(⟨"\"u0\".value  IN (?)", .arr [JSVal.str "x"],
        some ", json_each(json_extract(document, \"$.hobbies\")) as \"u0\""⟩ : QueryResult)] ≠
      querySql [⟨"\"u1\".value  IN (?)", .arr [JSVal.str "x"],
        some ", json_each(json_extract(document, \"$.hobbies\")) as \"u1\""⟩] ∧
    queryJoin [(⟨"\"u0\".value  IN (?)", .arr [JSVal.str "x"],
        some ", json_each(json_extract(document, \"$.hobbies\")) as \"u0\""⟩ : QueryResult)] ≠
      queryJoin [⟨"\"u1\".value  IN (?)", .arr [JSVal.str "x"],
        some ", json_each(json_extract(document, \"$.hobbies\")) as \"u1\""⟩] ∧
    queryValues [(⟨"\"u0\".value  IN (?)", .arr [JSVal.str "x"],
        some ", json_each(json_extract(document, \"$.hobbies\")) as \"u0\""⟩ : QueryResult)] =
      queryValues [⟨"\"u1\".value  IN (?)", .arr [JSVal.str "x"],
        some ", json_each(json_extract(document, \"$.hobbies\")) as \"u1\""⟩] :=
  ⟨rfl, rfl, by decide, by decide, rfl⟩

/-- Claim C8 (amended): compilation is a pure function of the AST, the
collection name, the array-index map and the id-field map except for the
fresh `$in`/`$nin` expansion aliases: two constructions (any two draw
counters and fresh-identifier streams) always agree on `values`, and agree
on `sql` and `join` as well whenever the query contains no `$in`/`$nin`
predicate on an unindexed path. -/
theorem query_compiler_determinism (env env2 : QEnv)
    (hn : env.name = env2.name) (ha : env.arrayIndexes = env2.arrayIndexes)
    (hf : env.nonJSONFields = env2.nonJSONFields)
    (parts : List QueryPart) (c c2 d d2 : Nat) (rs rs2 : List QueryResult)
    (h1 : queryResults env parts c = .ok (rs, c2))
    (h2 : queryResults env2 parts d = .ok (rs2, d2)) :
    queryValues rs = queryValues rs2 ∧
    (partsUseAlias env parts = false →
      querySql rs = querySql rs2 ∧ queryJoin rs = queryJoin rs2) := by
  have hd := partsToString_det env env2 hn ha hf parts "" c c2 d d2 rs rs2 h1 h2
  constructor
  · rw [queryValues, queryValues, hd.1]
  · intro hna
    rw [hd.2 hna]
    exact ⟨rfl, rfl⟩

theorem query_compiler_determinism_witness :
    queryValues [(⟨"(json_extract(document, \"$.firstname\")  IS ?)",
        JSVal.str "Lisa", none⟩ : QueryResult)] =
      queryValues [⟨"(json_extract(document, \"$.firstname\")  IS ?)",
        JSVal.str "Lisa", none⟩] ∧
    querySql [(⟨"(json_extract(document, \"$.firstname\")  IS ?)",
        JSVal.str "Lisa", none⟩ : QueryResult)] =
      querySql [⟨"(json_extract(document, \"$.firstname\")  IS ?)",
        JSVal.str "Lisa", none⟩] := by
  have h := query_compiler_determinism
    ⟨"people", fun _ => none, fun _ => none, fun n => "a" ++ toString n⟩
    ⟨"people", fun _ => none, fun _ => none, fun n => "b" ++ toString n⟩
    rfl rfl rfl
    [.mk (some "firstname") none (.str "Lisa") []] 0 0 5 5
    [⟨"(json_extract(document, \"$.firstname\")  IS ?)", JSVal.str "Lisa", none⟩]
    [⟨"(json_extract(document, \"$.firstname\")  IS ?)", JSVal.str "Lisa", none⟩]
    rfl rfl
  exact ⟨h.1, (h.2 (by decide)).1⟩
